import Mathlib

/-
Shallow embedding of aten/src/ATen/native/CPUFallback.cpp.

The file models the two functions of the source, to_cpu (the tensor
relocation service) and cpu_fallback (the fallback orchestrator together
with its alias resolution loop), over an explicit data model:

* a Tensor is either undefined, or carries a device identity and a
  storage identity; the contents of storages live in a separate heap
  (St.heap), so that in-place data mutation is expressible while tensor
  metadata stays immutable, exactly as in the source where
  _copy_from_and_resize writes through a tensor into its storage;
* the dynamic value stack holds IValues (tensor, tensor list, or other);
* schema argument and return descriptors carry an optional alias
  annotation tagged with an identity token and a write flag, and two
  annotations match when these compare equal, as in the source where
  two c10 optional AliasInfo values are compared with operator ==.

External collaborators that the source calls but that are not part of
this translation unit (at::_to_cpu, at::_copy_from_and_resize,
Tensor::to, and the redispatched CPU kernel) are either taken as
parameters (the transfer primitive and the kernel) or modelled from the
spec as small state transformers on the heap.
-/

/-- Device identity: the host device (cpu) or some other backend. -/
inductive Device where
  | cpu : Device
  | backend : Nat → Device
deriving DecidableEq

/-- Tensor value: undefined, or defined with a device and a storage id.
The storage contents are kept in the heap of an St state, so a tensor
value itself is immutable metadata, as in ATen where copying data into a
tensor does not change which TensorImpl the caller holds. -/
inductive Tensor where
  | undef : Tensor
  | mk : Device → Nat → Tensor
deriving DecidableEq

/-- Mirrors at::Tensor::defined. -/
def Tensor.defined : Tensor → Bool
  | Tensor.undef => false
  | Tensor.mk _ _ => true

/-- Device of a defined tensor; junk value on an undefined tensor, where
the source would throw and which no claim exercises. -/
def Tensor.device : Tensor → Device
  | Tensor.undef => Device.cpu
  | Tensor.mk d _ => d

/-- Storage identity of a defined tensor; junk value on undefined. -/
def Tensor.storage : Tensor → Nat
  | Tensor.undef => 0
  | Tensor.mk _ st => st

/-- Alias annotation of a schema position: an identity token established
at schema parse time plus the mutability flag, compared structurally. -/
structure AliasInfo where
  token : Nat
  is_write : Bool
deriving DecidableEq

/-- Schema argument or return descriptor; only the alias annotation is
inspected by the fallback. -/
structure Argument where
  alias_info : Option AliasInfo
deriving DecidableEq

/-- Mirrors the test alias_info.has_value() and alias_info.value().isWrite(). -/
def writeAliased : Option AliasInfo → Bool
  | some a => a.is_write
  | none => false

/-- Operator schema: name, argument descriptors, return descriptors. -/
structure FunctionSchema where
  name : String
  arguments : List Argument
  returns : List Argument

/-- Dynamic stack value: the orchestrator inspects tensors and tensor
lists and passes every other payload through unexamined. -/
inductive IValue where
  | tensor : Tensor → IValue
  | tensorList : List Tensor → IValue
  | other : Nat → IValue
deriving DecidableEq

/-- Mirrors IValue::isTensor. -/
def IValue.isTensor : IValue → Bool
  | IValue.tensor _ => true
  | _ => false

/-- Default value used when reading the stack out of range; the source
never reads out of range on a well formed call. -/
def dv : IValue := IValue.other 0

/-- Mutable world state: storage contents indexed by storage id, plus
the next fresh storage id handed out by an allocating primitive. -/
structure St where
  heap : Nat → List Int
  next : Nat

/-- Fatal failures of the fallback: the schema inconsistency TORCH_CHECK
of the alias resolution loop, naming the operator and the return slot,
and the marker for the out of range access tensor_args[0] that the
source performs when an operator with zero tensor arguments reaches the
return copy path (undefined behavior in C++, a precondition violation). -/
inductive FallbackError where
  | schemaInconsistency : String → Nat → FallbackError
  | indexOutOfRange : FallbackError
deriving DecidableEq

/-- Non fatal advisory emitted by TORCH_WARN for an immutable alias
return, recording the operator name and the target device it mentions. -/
structure Warning where
  opName : String
  device : Device
deriving DecidableEq

/-- Mirrors the scatter loop of to_cpu: walk the input list, take a
defined slot from the head of the transferred list, and pass an
undefined slot through unchanged, exactly as the second loop of the
source replays the to_translate mask with the defined_pos cursor. -/
def scatterValid : List Tensor → List Tensor → List Tensor
  | [], _ => []
  | t :: ts, cs =>
    if t.defined = true then (cs.headD Tensor.undef) :: scatterValid ts cs.tail
    else t :: scatterValid ts cs

/-- Embedding of to_cpu from the source: separate out undefined tensors,
hand exactly the defined ones to the transfer primitive in one call, and
scatter the transferred tensors back into their original positions. The
transfer primitive at::_to_cpu is an external service and is therefore a
parameter, threaded through an arbitrary state so that instantiations
can allocate fresh storage or log their invocations. -/
def to_cpu {σ : Type} (prim : σ → List Tensor → σ × List Tensor) (s : σ)
    (tensors : List Tensor) : σ × List Tensor :=
  let valid_tensors := tensors.filter Tensor.defined
  let r := prim s valid_tensors
  (r.1, scatterValid tensors r.2)

/-- Instrumented transfer primitive that records the argument list of
every invocation, used to observe how often to_cpu calls its primitive. -/
def loggingPrim (inner : List Tensor → List Tensor) :
    List (List Tensor) → List Tensor → List (List Tensor) × List Tensor :=
  fun log ts => (log ++ [ts], inner ts)

/-- Modelled from the spec: Tensor::to on a device, which is not part of
the translated source file. Per the external interface section, copying
to the device a tensor already resides on returns the tensor itself, and
otherwise a standalone tensor is allocated on the target device with the
same storage contents. -/
def Tensor.to (t : Tensor) (d : Device) (s : St) : St × Tensor :=
  match t with
  | Tensor.undef => (s, Tensor.undef)
  | Tensor.mk dev stor =>
    if dev = d then (s, Tensor.mk dev stor)
    else (⟨Function.update s.heap s.next (s.heap stor), s.next + 1⟩,
          Tensor.mk d s.next)

/-- Modelled from the spec: the device targeted copy primitive
at::_copy_from_and_resize, which is not part of the translated source
file. It copies the storage contents of the source tensor into the
storage of the destination tensor in place, resizing the destination
storage as needed; on an undefined operand the source would throw, which
no claim exercises, so the state is returned unchanged there. -/
def copyFromAndResize (src dst : Tensor) (s : St) : St :=
  match src, dst with
  | Tensor.mk _ sstor, Tensor.mk _ dstor =>
    ⟨Function.update s.heap dstor (s.heap sstor), s.next⟩
  | _, _ => s

/-- Modelled from the spec: the transfer primitive at::_to_cpu, which is
not part of the translated source file. Given a list of defined tensors
it returns an equal length list of host resident tensors, each a fresh
allocation carrying a copy of the data, per the external interface
section. Used to instantiate the prim parameter in concrete runs. -/
def toCpuPrim : St → List Tensor → St × List Tensor
  | s, [] => (s, [])
  | s, t :: ts =>
    let s1 : St := ⟨Function.update s.heap s.next (s.heap t.storage), s.next + 1⟩
    let c : Tensor := Tensor.mk Device.cpu s.next
    let r := toCpuPrim s1 ts
    (r.1, c :: r.2)

/-- Step 1 of cpu_fallback: walk the argument window of the stack,
record every tensor argument together with its index, and relocate every
tensor list argument in place immediately and independently, as the
first loop of the source does. Returns the state after the list
relocations, the rewritten argument window, and the recorded pairs of
argument index and original tensor. -/
def gatherArgs (prim : St → List Tensor → St × List Tensor) :
    St → Nat → List IValue → St × List IValue × List (Nat × Tensor)
  | s, _, [] => (s, [], [])
  | s, idx, iv :: rest =>
    match iv with
    | IValue.tensor t =>
      let r := gatherArgs prim s (idx + 1) rest
      (r.1, IValue.tensor t :: r.2.1, (idx, t) :: r.2.2)
    | IValue.tensorList ts =>
      let c := to_cpu prim s ts
      let r := gatherArgs prim c.1 (idx + 1) rest
      (r.1, IValue.tensorList c.2 :: r.2.1, r.2.2)
    | IValue.other n =>
      let r := gatherArgs prim s (idx + 1) rest
      (r.1, IValue.other n :: r.2.1, r.2.2)

/-- Overwrite the stack slots of the recorded tensor arguments with the
relocated tensors, mirroring the loop after the batched to_cpu call. -/
def writeBackArgs (base : Nat) : List IValue → List Nat → List Tensor → List IValue
  | stk, [], _ => stk
  | stk, i :: is, cs =>
    writeBackArgs base (stk.set (base + i) (IValue.tensor (cs.headD Tensor.undef)))
      is cs.tail

/-- Step 3 of cpu_fallback: for every recorded tensor argument whose
schema alias annotation is a write alias, copy the relocated tensor
data back into the storage of the original input tensor. -/
def copyBack (sargs : List Argument) :
    List (Nat × Tensor) → List Tensor → St → St
  | [], _, s => s
  | r :: rest, cs, s =>
    let s1 := if writeAliased ((sargs.getD r.1 ⟨none⟩).alias_info) = true
              then copyFromAndResize (cs.headD Tensor.undef) r.2 s
              else s
    copyBack sargs rest cs.tail s1

/-- Mirrors the inner matching loop of the alias resolution step: walk
the recorded tensor arguments in increasing index order in step with the
relocated tensors, and return the first ORIGINAL input tensor whose
relocated tensor is defined and whose schema alias annotation compares
equal to the alias annotation of the return. -/
def findAliasMatch (sargs : List Argument) (ra : Option AliasInfo) :
    List (Nat × Tensor) → List Tensor → Option Tensor
  | [], _ => none
  | r :: rest, cs =>
    if (cs.headD Tensor.undef).defined = true ∧
       (sargs.getD r.1 ⟨none⟩).alias_info = ra
    then some r.2
    else findAliasMatch sargs ra rest cs.tail

/-- Step 4 of cpu_fallback: resolve each return stack position. A
defined tensor return with a write alias is replaced by the matching
original input tensor, or the call aborts with the schema inconsistency
error naming the operator and the slot; a defined tensor return with a
read alias emits one advisory naming the operator and the target device
and then falls through to the copy path; a defined tensor return with no
alias is copied to the device of the first recorded tensor argument.
Reading the first recorded tensor argument when none was recorded is the
out of range access of the source and aborts with the marker error. On
abort the stack, state and warnings accumulated so far are returned, as
in C++ where a thrown exception leaves prior in place mutations intact. -/
def resolveReturns (opName : String) (sargs : List Argument)
    (recs : List (Nat × Tensor)) (cpus : List Tensor) (rb : Nat) :
    List Argument → Nat → List IValue → St → List Warning →
      List IValue × St × List Warning × Option FallbackError
  | [], _, stk, s, ws => (stk, s, ws, none)
  | rdesc :: rest, idx, stk, s, ws =>
    match stk.getD (rb + idx) dv with
    | IValue.tensor Tensor.undef =>
      resolveReturns opName sargs recs cpus rb rest (idx + 1) stk s ws
    | IValue.tensor (Tensor.mk rdev rstor) =>
      match rdesc.alias_info with
      | some a =>
        if a.is_write = true then
          match findAliasMatch sargs (some a) recs cpus with
          | some t =>
            resolveReturns opName sargs recs cpus rb rest (idx + 1)
              (stk.set (rb + idx) (IValue.tensor t)) s ws
          | none =>
            (stk, s, ws, some (FallbackError.schemaInconsistency opName idx))
        else
          match recs with
          | [] => (stk, s, ws, some FallbackError.indexOutOfRange)
          | (_, t0) :: _ =>
            let al := Tensor.to (Tensor.mk rdev rstor) t0.device s
            resolveReturns opName sargs recs cpus rb rest (idx + 1)
              (stk.set (rb + idx) (IValue.tensor al.2)) al.1
              (ws ++ [⟨opName, t0.device⟩])
      | none =>
        match recs with
        | [] => (stk, s, ws, some FallbackError.indexOutOfRange)
        | (_, t0) :: _ =>
          let al := Tensor.to (Tensor.mk rdev rstor) t0.device s
          resolveReturns opName sargs recs cpus rb rest (idx + 1)
            (stk.set (rb + idx) (IValue.tensor al.2)) al.1 ws
    | IValue.tensorList _ =>
      resolveReturns opName sargs recs cpus rb rest (idx + 1) stk s ws
    | IValue.other _ =>
      resolveReturns opName sargs recs cpus rb rest (idx + 1) stk s ws

/-- Intermediate data of cpu_fallback after steps 1 to 3, before the
return resolution loop: the recorded argument pairs, the relocated
tensors, the state right after the kernel ran, the state after the
mutable alias copy back, and the stack holding the kernel returns. -/
structure Prepared where
  recs : List (Nat × Tensor)
  cpus : List Tensor
  sk : St
  s3 : St
  stack3 : List IValue

/-- Steps 1 to 3 of cpu_fallback: gather and relocate the arguments,
redispatch to the reference kernel (a parameter, receiving the relocated
argument window and producing the returns, as redispatchBoxed pops the
arguments and pushes the returns), then reconcile the write aliased
inputs by copy back. -/
def fbPrepare (prim : St → List Tensor → St × List Tensor)
    (kernel : St → List IValue → St × List IValue)
    (op : FunctionSchema) (stack : List IValue) (s : St) : Prepared :=
  let nargs := op.arguments.length
  let abegin := stack.length - nargs
  let g := gatherArgs prim s 0 (stack.drop abegin)
  let stack1 := stack.take abegin ++ g.2.1
  let recs := g.2.2
  let tc := to_cpu prim g.1 (recs.map Prod.snd)
  let cpus := tc.2
  let stack2 := writeBackArgs abegin stack1 (recs.map Prod.fst) cpus
  let kr := kernel tc.1 (stack2.drop abegin)
  let stack3 := stack2.take abegin ++ kr.2
  let s3 := copyBack op.arguments recs cpus kr.1
  ⟨recs, cpus, kr.1, s3, stack3⟩

/-- Observable outcome of a cpu_fallback call: the final stack, the
final state, the advisories emitted, and the fatal error if the call
aborted. On abort the stack and state keep every mutation performed
before the failing step, as the source mutates the caller owned stack in
place and C++ exception unwinding does not undo those writes. -/
structure FallbackResult where
  stack : List IValue
  st : St
  warnings : List Warning
  err : Option FallbackError

/-- Embedding of cpu_fallback from the source: steps 1 to 3 via
fbPrepare, then the return resolution loop of step 4 over the return
window of the stack. -/
def cpu_fallback (prim : St → List Tensor → St × List Tensor)
    (kernel : St → List IValue → St × List IValue)
    (op : FunctionSchema) (stack : List IValue) (s : St) : FallbackResult :=
  let p := fbPrepare prim kernel op stack s
  let rb := p.stack3.length - op.returns.length
  let r := resolveReturns op.name op.arguments p.recs p.cpus rb
    op.returns 0 p.stack3 p.s3 []
  ⟨r.1, r.2.1, r.2.2.1, r.2.2.2⟩

/-
Concrete operator calls used to exercise the embedding on closed inputs.
-/

/-- Concrete schema of an in place operator: one write aliased tensor
argument, one plain argument, one write aliased return with the same
annotation token, in the style of add_. -/
def opA : FunctionSchema :=
  ⟨"add_", [⟨some ⟨0, true⟩⟩, ⟨none⟩], [⟨some ⟨0, true⟩⟩]⟩

/-- Concrete stack for opA: two defined tensors on backend 0 with
storages 0 and 1. -/
def stackA : List IValue :=
  [IValue.tensor (Tensor.mk (Device.backend 0) 0),
   IValue.tensor (Tensor.mk (Device.backend 0) 1)]

/-- Concrete initial state: storages 0 and 1 hold data, counter at 2. -/
def stA : St :=
  ⟨fun k => if k = 0 then [1] else if k = 1 then [2] else [], 2⟩

/-- Concrete reference kernel that writes the value seven into the
storage of its first tensor argument and returns that argument, in the
style of an in place kernel. -/
def mutKernel : St → List IValue → St × List IValue :=
  fun s args =>
    match args.headD dv with
    | IValue.tensor t => (⟨Function.update s.heap t.storage [7], s.next⟩, [IValue.tensor t])
    | _ => (s, [IValue.other 0])

/-- Concrete schema of a view style operator: one read aliased tensor
argument, one plain argument, one read aliased return. -/
def opB : FunctionSchema :=
  ⟨"view_as", [⟨some ⟨0, false⟩⟩, ⟨none⟩], [⟨some ⟨0, false⟩⟩]⟩

/-- Concrete reference kernel that returns its first argument unchanged. -/
def headKernel : St → List IValue → St × List IValue :=
  fun s args => (s, [args.headD dv])

/-- Concrete schema with a malformed alias annotation: the write alias
of the return matches no argument annotation. -/
def opC9 : FunctionSchema :=
  ⟨"f", [⟨some ⟨0, true⟩⟩], [⟨some ⟨1, true⟩⟩]⟩

/-- Concrete stack for opC9: one defined tensor on backend 0. -/
def stackC9 : List IValue := [IValue.tensor (Tensor.mk (Device.backend 0) 5)]

/-- Concrete initial state for opC9. -/
def stC9 : St := ⟨fun _ => [], 10⟩

/-- Concrete reference kernel that returns its arguments as its returns. -/
def echoKernel : St → List IValue → St × List IValue := fun s args => (s, args)

/-- Concrete schema whose only argument is not tensor valued and whose
return is an unaliased tensor, violating the device inference
precondition of the fallback. -/
def opZ : FunctionSchema := ⟨"zeroargs", [⟨none⟩], [⟨none⟩]⟩

/-- Concrete stack for opZ: one opaque value. -/
def stackZ : List IValue := [IValue.other 3]

/-- Concrete reference kernel that returns one defined host tensor. -/
def constKernel : St → List IValue → St × List IValue :=
  fun s _ => (s, [IValue.tensor (Tensor.mk Device.cpu 0)])

/-- Concrete schema with two write aliased tensor arguments carrying the
same annotation token and one write aliased return, used to observe that
the first argument, being undefined, is skipped by the alias match. -/
def opD : FunctionSchema :=
  ⟨"d", [⟨some ⟨0, true⟩⟩, ⟨some ⟨0, true⟩⟩], [⟨some ⟨0, true⟩⟩]⟩

/-- Concrete stack for opD: an undefined tensor then a defined one. -/
def stackD : List IValue :=
  [IValue.tensor Tensor.undef, IValue.tensor (Tensor.mk (Device.backend 0) 0)]

/-- Concrete initial state for opD. -/
def stD : St := ⟨fun _ => [], 1⟩

/-- Concrete reference kernel that returns its second argument. -/
def secondKernel : St → List IValue → St × List IValue :=
  fun s args => (s, [args.getD 1 dv])

/-
Lemmas about the relocation service to_cpu.
-/

/-- The head with default equals position zero with default. -/
theorem headD_eq_getD_zero {α : Type} (l : List α) (d : α) :
    l.headD d = l.getD 0 d := by
  cases l <;> rfl

/-- Unfolding of the scatter loop at a defined head. -/
theorem scatterValid_cons_defined (t : Tensor) (ts cs : List Tensor)
    (h : t.defined = true) :
    scatterValid (t :: ts) cs = (cs.headD Tensor.undef) :: scatterValid ts cs.tail := by
  simp [scatterValid, h]

/-- Unfolding of the scatter loop at an undefined head. -/
theorem scatterValid_cons_undefined (t : Tensor) (ts cs : List Tensor)
    (h : t.defined = false) :
    scatterValid (t :: ts) cs = t :: scatterValid ts cs := by
  simp [scatterValid, h]

/-- The scatter loop preserves the length of the input list. -/
theorem scatterValid_length (ts cs : List Tensor) :
    (scatterValid ts cs).length = ts.length := by
  induction ts generalizing cs with
  | nil => rfl
  | cons t ts ih =>
    by_cases h : t.defined = true <;> simp [scatterValid, h, ih]

/-- An undefined slot is passed through unchanged by the scatter loop. -/
theorem scatterValid_getD_undef (ts : List Tensor) :
    ∀ (cs : List Tensor) (i : Nat), (ts.getD i Tensor.undef).defined = false →
      (scatterValid ts cs).getD i Tensor.undef = ts.getD i Tensor.undef := by
  induction ts with
  | nil => intro cs i _; simp [scatterValid]
  | cons t ts ih =>
    intro cs i h
    cases i with
    | zero =>
      simp only [List.getD_cons_zero] at h
      rw [scatterValid_cons_undefined t ts cs h, List.getD_cons_zero, List.getD_cons_zero]
    | succ n =>
      simp only [List.getD_cons_succ] at h
      cases hd : t.defined with
      | true =>
        rw [scatterValid_cons_defined t ts cs hd, List.getD_cons_succ, List.getD_cons_succ]
        exact ih cs.tail n h
      | false =>
        rw [scatterValid_cons_undefined t ts cs hd, List.getD_cons_succ, List.getD_cons_succ]
        exact ih cs n h

/-- A defined slot at position i receives the transferred tensor whose
rank equals the number of defined slots before position i. -/
theorem scatterValid_getD_defined (ts : List Tensor) :
    ∀ (cs : List Tensor) (i : Nat),
      cs.length = (ts.filter Tensor.defined).length → i < ts.length →
      (ts.getD i Tensor.undef).defined = true →
      (scatterValid ts cs).getD i Tensor.undef =
        cs.getD ((ts.take i).countP Tensor.defined) Tensor.undef := by
  induction ts with
  | nil => intro cs i _ hi _; exact absurd hi (by simp)
  | cons t ts ih =>
    intro cs i hlen hi h
    cases i with
    | zero =>
      simp only [List.getD_cons_zero] at h
      rw [scatterValid_cons_defined t ts cs h, List.getD_cons_zero, List.take_zero,
        List.countP_nil, headD_eq_getD_zero]
    | succ n =>
      simp only [List.getD_cons_succ] at h
      cases hd : t.defined with
      | true =>
        have hcons : (t :: ts).filter Tensor.defined = t :: ts.filter Tensor.defined := by
          simp [List.filter, hd]
        rw [hcons] at hlen
        have htl : cs.tail.length = (ts.filter Tensor.defined).length := by
          cases cs with
          | nil => exact absurd hlen (by simp)
          | cons c cs => simpa using hlen
        have hn : n < ts.length := by simpa using hi
        have hcount : ((t :: ts).take (n + 1)).countP Tensor.defined =
            (ts.take n).countP Tensor.defined + 1 := by
          simp [List.take_succ_cons, List.countP_cons, hd]
        have hget : cs.getD ((ts.take n).countP Tensor.defined + 1) Tensor.undef =
            cs.tail.getD ((ts.take n).countP Tensor.defined) Tensor.undef := by
          cases cs <;> simp [List.getD_cons_succ]
        rw [scatterValid_cons_defined t ts cs hd, List.getD_cons_succ, hcount, hget]
        exact ih cs.tail n htl hn h
      | false =>
        have hcons : (t :: ts).filter Tensor.defined = ts.filter Tensor.defined := by
          simp [List.filter, hd]
        rw [hcons] at hlen
        have hn : n < ts.length := by simpa using hi
        have hcount : ((t :: ts).take (n + 1)).countP Tensor.defined =
            (ts.take n).countP Tensor.defined := by
          simp [List.take_succ_cons, List.countP_cons, hd]
        rw [scatterValid_cons_undefined t ts cs hd, List.getD_cons_succ, hcount]
        exact ih cs n hlen hn h

/-- With no defined slot at all the scatter loop returns the input list. -/
theorem scatterValid_all_undef (ts : List Tensor) :
    ∀ cs : List Tensor, (∀ t ∈ ts, t.defined = false) → scatterValid ts cs = ts := by
  induction ts with
  | nil => intro cs _; rfl
  | cons t ts ih =>
    intro cs h
    have h0 : t.defined = false := h t (by simp)
    have h2 : ¬t.defined = true := by simp [h0]
    simp [scatterValid, h2, ih cs (fun u hu => h u (by simp [hu]))]

/-- C4: to_cpu returns a list of the same length and order in which each
defined entry is replaced by the transferred tensor of the same rank and
each undefined entry passes through untouched; the single invocation of
the transfer primitive receives exactly the defined entries, so their
count equals the defined count. The hypothesis is the contract of the
external transfer primitive: it returns as many tensors as it was given. -/
theorem to_cpu_relocation_spec {σ : Type} (prim : σ → List Tensor → σ × List Tensor)
    (s : σ) (ts : List Tensor)
    (h : ((prim s (ts.filter Tensor.defined)).2).length = (ts.filter Tensor.defined).length) :
    ((to_cpu prim s ts).2).length = ts.length
    ∧ (∀ i, (ts.getD i Tensor.undef).defined = false →
        ((to_cpu prim s ts).2).getD i Tensor.undef = ts.getD i Tensor.undef)
    ∧ (∀ i, i < ts.length → (ts.getD i Tensor.undef).defined = true →
        ((to_cpu prim s ts).2).getD i Tensor.undef =
          ((prim s (ts.filter Tensor.defined)).2).getD
            ((ts.take i).countP Tensor.defined) Tensor.undef)
    ∧ (ts.filter Tensor.defined).length = ts.countP Tensor.defined
    ∧ (∀ (inner : List Tensor → List Tensor) (log0 : List (List Tensor)),
        (to_cpu (loggingPrim inner) log0 ts).1 = log0 ++ [ts.filter Tensor.defined]) := by
  refine ⟨?_, ?_, ?_, ?_, ?_⟩
  · simp [to_cpu, scatterValid_length]
  · intro i hu
    simpa [to_cpu] using scatterValid_getD_undef ts (prim s (ts.filter Tensor.defined)).2 i hu
  · intro i hi hd
    simpa [to_cpu] using
      scatterValid_getD_defined ts (prim s (ts.filter Tensor.defined)).2 i h hi hd
  · exact (List.countP_eq_length_filter ..).symm
  · intro inner log0
    simp [to_cpu, loggingPrim]

/-- Witness for C4 at a concrete input with one undefined and one
defined tensor and the identity transfer primitive. -/
theorem to_cpu_relocation_spec_witness :
    ((to_cpu (fun (u : Unit) ts => (u, ts)) () [Tensor.undef, Tensor.mk Device.cpu 0]).2).length = 2 :=
  (to_cpu_relocation_spec (fun (u : Unit) ts => (u, ts)) ()
    [Tensor.undef, Tensor.mk Device.cpu 0] (by decide)).1

/-- C5 counterexample: on the input list holding a single undefined
tensor the valid sublist is empty, yet to_cpu still invokes the transfer
primitive, once, so the invocation log is not empty, refuting the claim
that no invocation happens. -/
theorem to_cpu_empty_valid_invokes_primitive :
    ¬ ((to_cpu (loggingPrim (fun ts => ts)) ([] : List (List Tensor)) [Tensor.undef]).1
        = ([] : List (List Tensor))) := by
  decide

/-- C5 amended: when no entry of the input is defined, to_cpu still
invokes the transfer primitive exactly once but passes it the empty
list, so no tensor is transferred, and the returned list is the input
unchanged. -/
theorem to_cpu_no_defined_transfers_nothing (ts : List Tensor)
    (h : ∀ t ∈ ts, t.defined = false) :
    ∀ (inner : List Tensor → List Tensor) (log0 : List (List Tensor)),
      (to_cpu (loggingPrim inner) log0 ts).1 = log0 ++ [[]]
      ∧ (to_cpu (loggingPrim inner) log0 ts).2 = ts := by
  have hf : ts.filter Tensor.defined = [] := by
    refine List.filter_eq_nil_iff.mpr ?_
    intro t ht
    simp [h t ht]
  intro inner log0
  constructor
  · simp [to_cpu, loggingPrim, hf]
  · simp [to_cpu, loggingPrim, hf, scatterValid_all_undef ts (inner []) h]

/-- Witness for the amended C5 at the concrete one element undefined input. -/
theorem to_cpu_no_defined_transfers_nothing_witness :
    (to_cpu (loggingPrim (fun ts => ts)) [] [Tensor.undef]).1 = [[]]
    ∧ (to_cpu (loggingPrim (fun ts => ts)) [] [Tensor.undef]).2 = [Tensor.undef] :=
  to_cpu_no_defined_transfers_nothing [Tensor.undef] (by decide) (fun ts => ts) []

/-
Lemmas about the alias match search, the argument gathering loop, and
the mutable alias copy back loop.
-/

/-- Reading through the tail shifts the position by one. -/
theorem getD_tail {α : Type} (l : List α) (j : Nat) (d : α) :
    l.tail.getD j d = l.getD (j + 1) d := by
  cases l <;> simp [List.getD_cons_succ]

/-- Unfolding of the alias match search at a cons cell. -/
theorem findAliasMatch_cons (sargs : List Argument) (ra : Option AliasInfo)
    (r : Nat × Tensor) (rest : List (Nat × Tensor)) (cs : List Tensor) :
    findAliasMatch sargs ra (r :: rest) cs =
      if (cs.headD Tensor.undef).defined = true ∧
         (sargs.getD r.1 ⟨none⟩).alias_info = ra
      then some r.2 else findAliasMatch sargs ra rest cs.tail := rfl

/-- The alias match search returns the original tensor of the first
recorded argument, in increasing order, whose relocated tensor is
defined and whose alias annotation compares equal to the target. -/
theorem findAliasMatch_eq_first (sargs : List Argument) (ra : Option AliasInfo) :
    ∀ (recs : List (Nat × Tensor)) (cpus : List Tensor) (k : Nat),
      k < recs.length →
      (cpus.getD k Tensor.undef).defined = true →
      (sargs.getD (recs.getD k (0, Tensor.undef)).1 ⟨none⟩).alias_info = ra →
      (∀ j, j < k → ¬((cpus.getD j Tensor.undef).defined = true ∧
        (sargs.getD (recs.getD j (0, Tensor.undef)).1 ⟨none⟩).alias_info = ra)) →
      findAliasMatch sargs ra recs cpus = some (recs.getD k (0, Tensor.undef)).2 := by
  intro recs
  induction recs with
  | nil => intro cpus k hk _ _ _; exact absurd hk (by simp)
  | cons r rest ih =>
    intro cpus k hk hdef hmatch hfirst
    cases k with
    | zero =>
      rw [findAliasMatch_cons, if_pos, List.getD_cons_zero]
      constructor
      · rw [headD_eq_getD_zero]; exact hdef
      · simpa [List.getD_cons_zero] using hmatch
    | succ n =>
      have hk2 : n < rest.length := by simpa using hk
      have hdef2 : (cpus.tail.getD n Tensor.undef).defined = true := by
        rw [getD_tail]; exact hdef
      have hmatch2 : (sargs.getD (rest.getD n (0, Tensor.undef)).1 ⟨none⟩).alias_info = ra := by
        simpa [List.getD_cons_succ] using hmatch
      have hfirst2 : ∀ j, j < n → ¬((cpus.tail.getD j Tensor.undef).defined = true ∧
          (sargs.getD (rest.getD j (0, Tensor.undef)).1 ⟨none⟩).alias_info = ra) := by
        intro j hj
        have h2 := hfirst (j + 1) (by omega)
        rw [getD_tail]
        simpa [List.getD_cons_succ] using h2
      have h0 := hfirst 0 (by omega)
      have hcond : ¬((cpus.headD Tensor.undef).defined = true ∧
          (sargs.getD r.1 ⟨none⟩).alias_info = ra) := by
        rw [headD_eq_getD_zero]
        simpa [List.getD_cons_zero] using h0
      rw [findAliasMatch_cons, if_neg hcond, List.getD_cons_succ]
      exact ih cpus.tail n hk2 hdef2 hmatch2 hfirst2

/-- A successful alias match search always selects a recorded argument
whose relocated tensor is defined and whose annotation matches; an
argument with an undefined relocated tensor is never the target. -/
theorem findAliasMatch_some_defined (sargs : List Argument) (ra : Option AliasInfo) :
    ∀ (recs : List (Nat × Tensor)) (cpus : List Tensor) (t : Tensor),
      findAliasMatch sargs ra recs cpus = some t →
      ∃ k, k < recs.length ∧ t = (recs.getD k (0, Tensor.undef)).2 ∧
        (cpus.getD k Tensor.undef).defined = true ∧
        (sargs.getD (recs.getD k (0, Tensor.undef)).1 ⟨none⟩).alias_info = ra := by
  intro recs
  induction recs with
  | nil => intro cpus t h; exact absurd h (by simp [findAliasMatch])
  | cons r rest ih =>
    intro cpus t h
    rw [findAliasMatch_cons] at h
    by_cases hc : (cpus.headD Tensor.undef).defined = true ∧
        (sargs.getD r.1 ⟨none⟩).alias_info = ra
    · rw [if_pos hc] at h
      injection h with h2
      refine ⟨0, by simp, ?_, ?_, ?_⟩
      · simp [h2.symm]
      · rw [← headD_eq_getD_zero]; exact hc.1
      · simpa [List.getD_cons_zero] using hc.2
    · rw [if_neg hc] at h
      obtain ⟨k, hk, ht, hdef, hmatch⟩ := ih cpus.tail t h
      refine ⟨k + 1, by simpa using Nat.succ_lt_succ hk, ?_, ?_, ?_⟩
      · simpa [List.getD_cons_succ] using ht
      · rw [← getD_tail]; exact hdef
      · simpa [List.getD_cons_succ] using hmatch

/-- A successful alias match search returns an entry of the record list. -/
theorem findAliasMatch_mem (sargs : List Argument) (ra : Option AliasInfo) :
    ∀ (recs : List (Nat × Tensor)) (cpus : List Tensor) (t : Tensor),
      findAliasMatch sargs ra recs cpus = some t → ∃ i, (i, t) ∈ recs := by
  intro recs
  induction recs with
  | nil => intro cpus t h; exact absurd h (by simp [findAliasMatch])
  | cons r rest ih =>
    intro cpus t h
    rw [findAliasMatch_cons] at h
    by_cases hc : (cpus.headD Tensor.undef).defined = true ∧
        (sargs.getD r.1 ⟨none⟩).alias_info = ra
    · rw [if_pos hc] at h
      injection h with h2
      exact ⟨r.1, by simp [h2.symm]⟩
    · rw [if_neg hc] at h
      obtain ⟨i, hi⟩ := ih cpus.tail t h
      exact ⟨i, by simp [hi]⟩

/-- Unfolding of the gathering loop at a tensor argument. -/
theorem gatherArgs_cons_tensor (prim : St → List Tensor → St × List Tensor)
    (s : St) (idx : Nat) (t : Tensor) (rest : List IValue) :
    gatherArgs prim s idx (IValue.tensor t :: rest) =
      ((gatherArgs prim s (idx + 1) rest).1,
       IValue.tensor t :: (gatherArgs prim s (idx + 1) rest).2.1,
       (idx, t) :: (gatherArgs prim s (idx + 1) rest).2.2) := rfl

/-- Unfolding of the gathering loop at a tensor list argument. -/
theorem gatherArgs_cons_tensorList (prim : St → List Tensor → St × List Tensor)
    (s : St) (idx : Nat) (ts : List Tensor) (rest : List IValue) :
    gatherArgs prim s idx (IValue.tensorList ts :: rest) =
      ((gatherArgs prim (to_cpu prim s ts).1 (idx + 1) rest).1,
       IValue.tensorList (to_cpu prim s ts).2 ::
         (gatherArgs prim (to_cpu prim s ts).1 (idx + 1) rest).2.1,
       (gatherArgs prim (to_cpu prim s ts).1 (idx + 1) rest).2.2) := rfl

/-- Unfolding of the gathering loop at an opaque argument. -/
theorem gatherArgs_cons_other (prim : St → List Tensor → St × List Tensor)
    (s : St) (idx : Nat) (n : Nat) (rest : List IValue) :
    gatherArgs prim s idx (IValue.other n :: rest) =
      ((gatherArgs prim s (idx + 1) rest).1,
       IValue.other n :: (gatherArgs prim s (idx + 1) rest).2.1,
       (gatherArgs prim s (idx + 1) rest).2.2) := rfl

/-- Every recorded pair of the gathering loop is an original tensor
argument read from its stack position in the argument window. -/
theorem gatherArgs_mem (prim : St → List Tensor → St × List Tensor) :
    ∀ (args : List IValue) (s : St) (idx : Nat) (p : Nat × Tensor),
      p ∈ (gatherArgs prim s idx args).2.2 →
      idx ≤ p.1 ∧ args.getD (p.1 - idx) dv = IValue.tensor p.2 := by
  intro args
  induction args with
  | nil => intro s idx p hp; exact absurd hp (by simp [gatherArgs])
  | cons iv rest ih =>
    intro s idx p hp
    cases iv with
    | tensor t =>
      rw [gatherArgs_cons_tensor] at hp
      rcases List.mem_cons.mp hp with heq | hmem
      · subst heq
        exact ⟨le_refl idx, by simp [Nat.sub_self, List.getD_cons_zero]⟩
      · obtain ⟨hle, hget⟩ := ih s (idx + 1) p hmem
        refine ⟨by omega, ?_⟩
        have hstep : p.1 - idx = (p.1 - (idx + 1)) + 1 := by omega
        rw [hstep, List.getD_cons_succ]
        exact hget
    | tensorList ts =>
      rw [gatherArgs_cons_tensorList] at hp
      obtain ⟨hle, hget⟩ := ih (to_cpu prim s ts).1 (idx + 1) p hp
      refine ⟨by omega, ?_⟩
      have hstep : p.1 - idx = (p.1 - (idx + 1)) + 1 := by omega
      rw [hstep, List.getD_cons_succ]
      exact hget
    | other n =>
      rw [gatherArgs_cons_other] at hp
      obtain ⟨hle, hget⟩ := ih s (idx + 1) p hp
      refine ⟨by omega, ?_⟩
      have hstep : p.1 - idx = (p.1 - (idx + 1)) + 1 := by omega
      rw [hstep, List.getD_cons_succ]
      exact hget

/-- The first recorded pair of the gathering loop is the first tensor
valued slot of the argument window: its stack position holds that
tensor, and no earlier position holds a tensor value. -/
theorem gatherArgs_head_first (prim : St → List Tensor → St × List Tensor) :
    ∀ (args : List IValue) (s : St) (idx : Nat) (i0 : Nat) (t0 : Tensor)
      (rest : List (Nat × Tensor)),
      (gatherArgs prim s idx args).2.2 = (i0, t0) :: rest →
      idx ≤ i0 ∧ args.getD (i0 - idx) dv = IValue.tensor t0 ∧
      ∀ i, idx ≤ i → i < i0 → (args.getD (i - idx) dv).isTensor = false := by
  intro args
  induction args with
  | nil => intro s idx i0 t0 rest h; exact absurd h (by simp [gatherArgs])
  | cons iv ars ih =>
    intro s idx i0 t0 rest h
    cases iv with
    | tensor t =>
      rw [gatherArgs_cons_tensor] at h
      have h1 : (idx, t) = (i0, t0) := by injection h
      have hidx : idx = i0 := congrArg Prod.fst h1
      have ht : t = t0 := congrArg Prod.snd h1
      subst hidx; subst ht
      refine ⟨le_refl idx, by simp [Nat.sub_self, List.getD_cons_zero], ?_⟩
      intro i hi1 hi2
      omega
    | tensorList ts =>
      rw [gatherArgs_cons_tensorList] at h
      obtain ⟨hle, hget, hfirst⟩ := ih (to_cpu prim s ts).1 (idx + 1) i0 t0 rest h
      refine ⟨by omega, ?_, ?_⟩
      · have hstep : i0 - idx = (i0 - (idx + 1)) + 1 := by omega
        rw [hstep, List.getD_cons_succ]
        exact hget
      · intro i hi1 hi2
        rcases Nat.eq_or_lt_of_le hi1 with heq | hlt
        · rw [← heq, Nat.sub_self, List.getD_cons_zero]
          rfl
        · have hstep : i - idx = (i - (idx + 1)) + 1 := by omega
          rw [hstep, List.getD_cons_succ]
          exact hfirst i hlt hi2
    | other n =>
      rw [gatherArgs_cons_other] at h
      obtain ⟨hle, hget, hfirst⟩ := ih s (idx + 1) i0 t0 rest h
      refine ⟨by omega, ?_, ?_⟩
      · have hstep : i0 - idx = (i0 - (idx + 1)) + 1 := by omega
        rw [hstep, List.getD_cons_succ]
        exact hget
      · intro i hi1 hi2
        rcases Nat.eq_or_lt_of_le hi1 with heq | hlt
        · rw [← heq, Nat.sub_self, List.getD_cons_zero]
          rfl
        · have hstep : i - idx = (i - (idx + 1)) + 1 := by omega
          rw [hstep, List.getD_cons_succ]
          exact hfirst i hlt hi2

/-- Unfolding of the copy back loop at a cons cell. -/
theorem copyBack_cons (sargs : List Argument) (r : Nat × Tensor)
    (rest : List (Nat × Tensor)) (cs : List Tensor) (s : St) :
    copyBack sargs (r :: rest) cs s =
      copyBack sargs rest cs.tail
        (if writeAliased ((sargs.getD r.1 ⟨none⟩).alias_info) = true
         then copyFromAndResize (cs.headD Tensor.undef) r.2 s
         else s) := rfl

/-- The copy back loop does not touch a storage that is not the storage
of some write aliased recorded argument. -/
theorem copyBack_preserve (sargs : List Argument) :
    ∀ (recs : List (Nat × Tensor)) (cpus : List Tensor) (s : St) (k0 : Nat),
      (∀ j, j < recs.length →
        writeAliased ((sargs.getD (recs.getD j (0, Tensor.undef)).1 ⟨none⟩).alias_info) = true →
        ((recs.getD j (0, Tensor.undef)).2).storage ≠ k0) →
      (copyBack sargs recs cpus s).heap k0 = s.heap k0 := by
  intro recs
  induction recs with
  | nil => intro cpus s k0 _; rfl
  | cons r rest ih =>
    intro cpus s k0 hall
    rw [copyBack_cons]
    have htail : ∀ j, j < rest.length →
        writeAliased ((sargs.getD (rest.getD j (0, Tensor.undef)).1 ⟨none⟩).alias_info) = true →
        ((rest.getD j (0, Tensor.undef)).2).storage ≠ k0 := by
      intro j hj hw
      have h2 := hall (j + 1) (by simpa using Nat.succ_lt_succ hj)
      simpa [List.getD_cons_succ] using h2 (by simpa [List.getD_cons_succ] using hw)
    cases hw : writeAliased ((sargs.getD r.1 ⟨none⟩).alias_info) with
    | false =>
      rw [if_neg (by simp)]
      exact ih cpus.tail s k0 htail
    | true =>
      rw [if_pos rfl]
      have hne : r.2.storage ≠ k0 := by
        have h2 := hall 0 (by simp) (by simpa [List.getD_cons_zero] using hw)
        simpa [List.getD_cons_zero] using h2
      have hstep : (copyFromAndResize (cpus.headD Tensor.undef) r.2 s).heap k0 = s.heap k0 := by
        cases hsrc : cpus.headD Tensor.undef with
        | undef => simp [copyFromAndResize]
        | mk d st =>
          cases hdst : r.2 with
          | undef => simp [copyFromAndResize]
          | mk d2 st2 =>
            have hne2 : k0 ≠ st2 := by
              rw [hdst] at hne
              simpa [Tensor.storage] using fun hh => hne hh.symm
            simp [copyFromAndResize, Function.update_noteq hne2]
      rw [ih cpus.tail _ k0 htail, hstep]

/-- The copy back loop writes, into the storage of a write aliased
original argument, the data that the relocated tensor holds at that
point, provided no other write aliased argument interferes with either
storage. -/
theorem copyBack_writes (sargs : List Argument) :
    ∀ (recs : List (Nat × Tensor)) (cpus : List Tensor) (s : St) (i : Nat)
      (tidx : Nat) (orig cpu : Tensor),
      i < recs.length →
      recs.getD i (0, Tensor.undef) = (tidx, orig) →
      cpus.getD i Tensor.undef = cpu →
      writeAliased ((sargs.getD tidx ⟨none⟩).alias_info) = true →
      orig.defined = true → cpu.defined = true →
      (∀ j, j < recs.length → j ≠ i →
        writeAliased ((sargs.getD (recs.getD j (0, Tensor.undef)).1 ⟨none⟩).alias_info) = true →
        ((recs.getD j (0, Tensor.undef)).2).storage ≠ orig.storage ∧
        ((recs.getD j (0, Tensor.undef)).2).storage ≠ cpu.storage) →
      (copyBack sargs recs cpus s).heap orig.storage = s.heap cpu.storage := by
  intro recs
  induction recs with
  | nil => intro cpus s i tidx orig cpu hi _ _ _ _ _ _; exact absurd hi (by simp)
  | cons r rest ih =>
    intro cpus s i tidx orig cpu hi hrec hcpu hw hod hcd hdist
    cases i with
    | zero =>
      have hr : r = (tidx, orig) := by simpa [List.getD_cons_zero] using hrec
      have hc : cpus.headD Tensor.undef = cpu := by
        rw [headD_eq_getD_zero]; exact hcpu
      have htail : ∀ j, j < rest.length →
          writeAliased ((sargs.getD (rest.getD j (0, Tensor.undef)).1 ⟨none⟩).alias_info) = true →
          ((rest.getD j (0, Tensor.undef)).2).storage ≠ orig.storage := by
        intro j hj hwj
        have h2 := hdist (j + 1) (by simpa using Nat.succ_lt_succ hj) (by omega)
        have h3 := h2 (by simpa [List.getD_cons_succ] using hwj)
        have h4 : ((rest.getD j (0, Tensor.undef)).2).storage ≠ orig.storage ∧
            ((rest.getD j (0, Tensor.undef)).2).storage ≠ cpu.storage := by
          simpa [List.getD_cons_succ] using h3
        exact h4.1
      rw [copyBack_cons, hr, hc, if_pos (by simpa using hw)]
      rw [copyBack_preserve sargs rest cpus.tail _ orig.storage htail]
      cases cpu with
      | undef => exact absurd hcd (by simp [Tensor.defined])
      | mk d st =>
        cases orig with
        | undef => exact absurd hod (by simp [Tensor.defined])
        | mk d2 st2 =>
          simp [copyFromAndResize, Tensor.storage, Function.update_same]
    | succ n =>
      have hi2 : n < rest.length := by simpa using hi
      have hrec2 : rest.getD n (0, Tensor.undef) = (tidx, orig) := by
        simpa [List.getD_cons_succ] using hrec
      have hcpu2 : cpus.tail.getD n Tensor.undef = cpu := by
        rw [getD_tail]; exact hcpu
      have hdist2 : ∀ j, j < rest.length → j ≠ n →
          writeAliased ((sargs.getD (rest.getD j (0, Tensor.undef)).1 ⟨none⟩).alias_info) = true →
          ((rest.getD j (0, Tensor.undef)).2).storage ≠ orig.storage ∧
          ((rest.getD j (0, Tensor.undef)).2).storage ≠ cpu.storage := by
        intro j hj hne hwj
        have h2 := hdist (j + 1) (by simpa using Nat.succ_lt_succ hj) (by omega)
        have h3 := h2 (by simpa [List.getD_cons_succ] using hwj)
        simpa [List.getD_cons_succ] using h3
      have hstep : ∀ s1 : St, s1.heap cpu.storage = s.heap cpu.storage →
          (copyBack sargs rest cpus.tail s1).heap orig.storage = s.heap cpu.storage := by
        intro s1 hs1
        rw [ih cpus.tail s1 n tidx orig cpu hi2 hrec2 hcpu2 hw hod hcd hdist2, hs1]
      rw [copyBack_cons]
      cases hwr : writeAliased ((sargs.getD r.1 ⟨none⟩).alias_info) with
      | false =>
        rw [if_neg (by simp)]
        exact hstep s rfl
      | true =>
        rw [if_pos rfl]
        apply hstep
        have hne : r.2.storage ≠ cpu.storage := by
          have h2 := hdist 0 (by simp) (by omega)
          have h3 := h2 (by simpa [List.getD_cons_zero] using hwr)
          have h4 : r.2.storage ≠ orig.storage ∧ r.2.storage ≠ cpu.storage := by
            simpa [List.getD_cons_zero] using h3
          exact h4.2
        cases hsrc : cpus.headD Tensor.undef with
        | undef => simp [copyFromAndResize]
        | mk d st =>
          cases hdst : r.2 with
          | undef => simp [copyFromAndResize]
          | mk d2 st2 =>
            have hne2 : cpu.storage ≠ st2 := by
              rw [hdst] at hne
              simpa [Tensor.storage] using fun hh => hne hh.symm
            simp [copyFromAndResize, Function.update_noteq hne2]

/-
Projection lemmas connecting cpu_fallback to its stages.
-/

/-- The recorded argument pairs of a call. -/
theorem fbPrepare_recs (prim : St → List Tensor → St × List Tensor)
    (kernel : St → List IValue → St × List IValue)
    (op : FunctionSchema) (stack : List IValue) (s : St) :
    (fbPrepare prim kernel op stack s).recs =
      (gatherArgs prim s 0 (stack.drop (stack.length - op.arguments.length))).2.2 := rfl

/-- The state after copy back is the copy back of the state after the kernel. -/
theorem fbPrepare_s3 (prim : St → List Tensor → St × List Tensor)
    (kernel : St → List IValue → St × List IValue)
    (op : FunctionSchema) (stack : List IValue) (s : St) :
    (fbPrepare prim kernel op stack s).s3 =
      copyBack op.arguments (fbPrepare prim kernel op stack s).recs
        (fbPrepare prim kernel op stack s).cpus
        (fbPrepare prim kernel op stack s).sk := rfl

/-- The outcome of cpu_fallback is the outcome of the return resolution
loop run on the prepared stages. -/
theorem cpu_fallback_eq (prim : St → List Tensor → St × List Tensor)
    (kernel : St → List IValue → St × List IValue)
    (op : FunctionSchema) (stack : List IValue) (s : St) :
    cpu_fallback prim kernel op stack s =
      ⟨(resolveReturns op.name op.arguments (fbPrepare prim kernel op stack s).recs
          (fbPrepare prim kernel op stack s).cpus
          ((fbPrepare prim kernel op stack s).stack3.length - op.returns.length)
          op.returns 0 (fbPrepare prim kernel op stack s).stack3
          (fbPrepare prim kernel op stack s).s3 []).1,
        (resolveReturns op.name op.arguments (fbPrepare prim kernel op stack s).recs
          (fbPrepare prim kernel op stack s).cpus
          ((fbPrepare prim kernel op stack s).stack3.length - op.returns.length)
          op.returns 0 (fbPrepare prim kernel op stack s).stack3
          (fbPrepare prim kernel op stack s).s3 []).2.1,
        (resolveReturns op.name op.arguments (fbPrepare prim kernel op stack s).recs
          (fbPrepare prim kernel op stack s).cpus
          ((fbPrepare prim kernel op stack s).stack3.length - op.returns.length)
          op.returns 0 (fbPrepare prim kernel op stack s).stack3
          (fbPrepare prim kernel op stack s).s3 []).2.2.1,
        (resolveReturns op.name op.arguments (fbPrepare prim kernel op stack s).recs
          (fbPrepare prim kernel op stack s).cpus
          ((fbPrepare prim kernel op stack s).stack3.length - op.returns.length)
          op.returns 0 (fbPrepare prim kernel op stack s).stack3
          (fbPrepare prim kernel op stack s).s3 []).2.2.2⟩ := rfl

/-
Lemmas about the return resolution loop.
-/

/-- Setting one position leaves reads at other positions unchanged. -/
theorem getD_set_ne {α : Type} (l : List α) (q p : Nat) (v d : α) (h : p ≠ q) :
    (l.set q v).getD p d = l.getD p d := by
  rw [List.getD_eq_getD_get?, List.getD_eq_getD_get?, List.get?_eq_getElem?,
    List.get?_eq_getElem?, List.getElem?_set_ne (Ne.symm h)]

/-- Setting an in range position is read back. -/
theorem getD_set_self {α : Type} (l : List α) (q : Nat) (v d : α) (h : q < l.length) :
    (l.set q v).getD q d = v := by
  rw [List.getD_eq_getD_get?, List.get?_eq_getElem?, List.getElem?_set_eq_of_lt v h]
  rfl

/-- A stack read that produced a tensor was in range, because the out of
range default is not a tensor. -/
theorem getD_tensor_lt (stk : List IValue) (p : Nat) (t : Tensor)
    (h : stk.getD p dv = IValue.tensor t) : p < stk.length := by
  by_contra hge
  rw [List.getD_eq_default stk dv (Nat.le_of_not_lt hge)] at h
  exact absurd h (by simp [dv])

/-- The device copy never decreases the allocation counter. -/
theorem tensorTo_next_mono (t : Tensor) (d : Device) (s : St) :
    s.next ≤ (Tensor.to t d s).1.next := by
  cases t with
  | undef => exact Nat.le_refl s.next
  | mk dev stor =>
    by_cases h : dev = d
    · simp [Tensor.to, h]
    · simp [Tensor.to, h]

/-- The device copy does not touch any storage below the counter. -/
theorem tensorTo_heap_lower (t : Tensor) (d : Device) (s : St) (k : Nat)
    (h : k < s.next) : (Tensor.to t d s).1.heap k = s.heap k := by
  cases t with
  | undef => rfl
  | mk dev stor =>
    by_cases h2 : dev = d
    · simp [Tensor.to, h2]
    · simp only [Tensor.to, h2, if_neg, ite_false]
      exact Function.update_noteq (by omega) _ _

/-- The device copy of a defined tensor resides on the target device. -/
theorem tensorTo_device (rdev : Device) (rstor : Nat) (d : Device) (s : St) :
    ((Tensor.to (Tensor.mk rdev rstor) d s).2).device = d := by
  by_cases h : rdev = d
  · simp [Tensor.to, h, Tensor.device]
  · simp [Tensor.to, h, Tensor.device]

/-- Unfolding of the resolution loop when the slot is an undefined tensor. -/
theorem resolveReturns_cons_skip_undef (opName : String) (sargs : List Argument)
    (recs : List (Nat × Tensor)) (cpus : List Tensor) (rb : Nat)
    (rdesc : Argument) (rest : List Argument) (idx : Nat)
    (stk : List IValue) (s : St) (ws : List Warning)
    (h1 : stk.getD (rb + idx) dv = IValue.tensor Tensor.undef) :
    resolveReturns opName sargs recs cpus rb (rdesc :: rest) idx stk s ws =
      resolveReturns opName sargs recs cpus rb rest (idx + 1) stk s ws := by
  simp only [resolveReturns, h1]

/-- Unfolding of the resolution loop when the slot is a tensor list. -/
theorem resolveReturns_cons_skip_list (opName : String) (sargs : List Argument)
    (recs : List (Nat × Tensor)) (cpus : List Tensor) (rb : Nat)
    (rdesc : Argument) (rest : List Argument) (idx : Nat)
    (stk : List IValue) (s : St) (ws : List Warning) (ts : List Tensor)
    (h1 : stk.getD (rb + idx) dv = IValue.tensorList ts) :
    resolveReturns opName sargs recs cpus rb (rdesc :: rest) idx stk s ws =
      resolveReturns opName sargs recs cpus rb rest (idx + 1) stk s ws := by
  simp only [resolveReturns, h1]

/-- Unfolding of the resolution loop when the slot is an opaque value. -/
theorem resolveReturns_cons_skip_other (opName : String) (sargs : List Argument)
    (recs : List (Nat × Tensor)) (cpus : List Tensor) (rb : Nat)
    (rdesc : Argument) (rest : List Argument) (idx : Nat)
    (stk : List IValue) (s : St) (ws : List Warning) (n : Nat)
    (h1 : stk.getD (rb + idx) dv = IValue.other n) :
    resolveReturns opName sargs recs cpus rb (rdesc :: rest) idx stk s ws =
      resolveReturns opName sargs recs cpus rb rest (idx + 1) stk s ws := by
  simp only [resolveReturns, h1]

/-- Unfolding of the resolution loop at a write aliased defined tensor
slot whose alias match succeeds: the original input replaces the slot. -/
theorem resolveReturns_cons_write_some (opName : String) (sargs : List Argument)
    (recs : List (Nat × Tensor)) (cpus : List Tensor) (rb : Nat)
    (rdesc : Argument) (rest : List Argument) (idx : Nat)
    (stk : List IValue) (s : St) (ws : List Warning)
    (rdev : Device) (rstor : Nat) (a : AliasInfo) (t : Tensor)
    (h1 : stk.getD (rb + idx) dv = IValue.tensor (Tensor.mk rdev rstor))
    (h2 : rdesc.alias_info = some a) (h3 : a.is_write = true)
    (h4 : findAliasMatch sargs (some a) recs cpus = some t) :
    resolveReturns opName sargs recs cpus rb (rdesc :: rest) idx stk s ws =
      resolveReturns opName sargs recs cpus rb rest (idx + 1)
        (stk.set (rb + idx) (IValue.tensor t)) s ws := by
  simp only [resolveReturns, h1, h2]
  rw [if_pos h3, h4]

/-- Unfolding of the resolution loop at a write aliased defined tensor
slot with no alias match: abort with the schema inconsistency error. -/
theorem resolveReturns_cons_write_none (opName : String) (sargs : List Argument)
    (recs : List (Nat × Tensor)) (cpus : List Tensor) (rb : Nat)
    (rdesc : Argument) (rest : List Argument) (idx : Nat)
    (stk : List IValue) (s : St) (ws : List Warning)
    (rdev : Device) (rstor : Nat) (a : AliasInfo)
    (h1 : stk.getD (rb + idx) dv = IValue.tensor (Tensor.mk rdev rstor))
    (h2 : rdesc.alias_info = some a) (h3 : a.is_write = true)
    (h4 : findAliasMatch sargs (some a) recs cpus = none) :
    resolveReturns opName sargs recs cpus rb (rdesc :: rest) idx stk s ws =
      (stk, s, ws, some (FallbackError.schemaInconsistency opName idx)) := by
  simp only [resolveReturns, h1, h2]
  rw [if_pos h3, h4]

/-- Unfolding of the resolution loop at a read aliased defined tensor
slot with at least one recorded tensor argument: emit the advisory and
copy to the device of the first recorded argument. -/
theorem resolveReturns_cons_read_alias (opName : String) (sargs : List Argument)
    (i0 : Nat) (t0 : Tensor) (rr : List (Nat × Tensor)) (cpus : List Tensor) (rb : Nat)
    (rdesc : Argument) (rest : List Argument) (idx : Nat)
    (stk : List IValue) (s : St) (ws : List Warning)
    (rdev : Device) (rstor : Nat) (a : AliasInfo)
    (h1 : stk.getD (rb + idx) dv = IValue.tensor (Tensor.mk rdev rstor))
    (h2 : rdesc.alias_info = some a) (h3 : a.is_write = false) :
    resolveReturns opName sargs ((i0, t0) :: rr) cpus rb (rdesc :: rest) idx stk s ws =
      resolveReturns opName sargs ((i0, t0) :: rr) cpus rb rest (idx + 1)
        (stk.set (rb + idx)
          (IValue.tensor (Tensor.to (Tensor.mk rdev rstor) t0.device s).2))
        (Tensor.to (Tensor.mk rdev rstor) t0.device s).1
        (ws ++ [⟨opName, t0.device⟩]) := by
  simp only [resolveReturns, h1, h2]
  rw [if_neg (by simp [h3])]

/-- Unfolding of the resolution loop at a read aliased defined tensor
slot with no recorded tensor argument: the out of range access. -/
theorem resolveReturns_cons_read_alias_oob (opName : String) (sargs : List Argument)
    (cpus : List Tensor) (rb : Nat)
    (rdesc : Argument) (rest : List Argument) (idx : Nat)
    (stk : List IValue) (s : St) (ws : List Warning)
    (rdev : Device) (rstor : Nat) (a : AliasInfo)
    (h1 : stk.getD (rb + idx) dv = IValue.tensor (Tensor.mk rdev rstor))
    (h2 : rdesc.alias_info = some a) (h3 : a.is_write = false) :
    resolveReturns opName sargs [] cpus rb (rdesc :: rest) idx stk s ws =
      (stk, s, ws, some FallbackError.indexOutOfRange) := by
  simp only [resolveReturns, h1, h2]
  rw [if_neg (by simp [h3])]

/-- Unfolding of the resolution loop at an unaliased defined tensor slot
with at least one recorded tensor argument: plain device copy. -/
theorem resolveReturns_cons_noalias (opName : String) (sargs : List Argument)
    (i0 : Nat) (t0 : Tensor) (rr : List (Nat × Tensor)) (cpus : List Tensor) (rb : Nat)
    (rdesc : Argument) (rest : List Argument) (idx : Nat)
    (stk : List IValue) (s : St) (ws : List Warning)
    (rdev : Device) (rstor : Nat)
    (h1 : stk.getD (rb + idx) dv = IValue.tensor (Tensor.mk rdev rstor))
    (h2 : rdesc.alias_info = none) :
    resolveReturns opName sargs ((i0, t0) :: rr) cpus rb (rdesc :: rest) idx stk s ws =
      resolveReturns opName sargs ((i0, t0) :: rr) cpus rb rest (idx + 1)
        (stk.set (rb + idx)
          (IValue.tensor (Tensor.to (Tensor.mk rdev rstor) t0.device s).2))
        (Tensor.to (Tensor.mk rdev rstor) t0.device s).1 ws := by
  simp only [resolveReturns, h1, h2]

/-- Unfolding of the resolution loop at an unaliased defined tensor slot
with no recorded tensor argument: the out of range access. -/
theorem resolveReturns_cons_noalias_oob (opName : String) (sargs : List Argument)
    (cpus : List Tensor) (rb : Nat)
    (rdesc : Argument) (rest : List Argument) (idx : Nat)
    (stk : List IValue) (s : St) (ws : List Warning)
    (rdev : Device) (rstor : Nat)
    (h1 : stk.getD (rb + idx) dv = IValue.tensor (Tensor.mk rdev rstor))
    (h2 : rdesc.alias_info = none) :
    resolveReturns opName sargs [] cpus rb (rdesc :: rest) idx stk s ws =
      (stk, s, ws, some FallbackError.indexOutOfRange) := by
  simp only [resolveReturns, h1, h2]

/-- The resolution loop never writes below the slot it starts at. -/
theorem resolveReturns_stack_lower (opName : String) (sargs : List Argument)
    (recs : List (Nat × Tensor)) (cpus : List Tensor) (rb : Nat) :
    ∀ (rets : List Argument) (idx : Nat) (stk : List IValue) (s : St)
      (ws : List Warning) (p : Nat),
      p < rb + idx →
      ((resolveReturns opName sargs recs cpus rb rets idx stk s ws).1).getD p dv =
        stk.getD p dv := by
  intro rets
  induction rets with
  | nil => intro idx stk s ws p hp; rfl
  | cons rdesc rest ih =>
    intro idx stk s ws p hp
    have hp1 : p < rb + (idx + 1) := by omega
    have hpne : p ≠ rb + idx := by omega
    cases hread : stk.getD (rb + idx) dv with
    | tensor t =>
      cases t with
      | undef =>
        rw [resolveReturns_cons_skip_undef opName sargs recs cpus rb rdesc rest idx stk s ws hread]
        exact ih (idx + 1) stk s ws p hp1
      | mk rdev rstor =>
        cases halias : rdesc.alias_info with
        | some a =>
          cases hwr : a.is_write with
          | true =>
            cases hm : findAliasMatch sargs (some a) recs cpus with
            | some t2 =>
              rw [resolveReturns_cons_write_some opName sargs recs cpus rb rdesc rest idx
                stk s ws rdev rstor a t2 hread halias hwr hm]
              rw [ih (idx + 1) _ s ws p hp1]
              exact getD_set_ne stk (rb + idx) p _ dv hpne
            | none =>
              rw [resolveReturns_cons_write_none opName sargs recs cpus rb rdesc rest idx
                stk s ws rdev rstor a hread halias hwr hm]
          | false =>
            cases recs with
            | nil =>
              rw [resolveReturns_cons_read_alias_oob opName sargs cpus rb rdesc rest idx
                stk s ws rdev rstor a hread halias hwr]
            | cons r1 rr =>
              obtain ⟨i0, t0⟩ := r1
              rw [resolveReturns_cons_read_alias opName sargs i0 t0 rr cpus rb rdesc rest idx
                stk s ws rdev rstor a hread halias hwr]
              rw [ih (idx + 1) _ _ _ p hp1]
              exact getD_set_ne stk (rb + idx) p _ dv hpne
        | none =>
          cases recs with
          | nil =>
            rw [resolveReturns_cons_noalias_oob opName sargs cpus rb rdesc rest idx
              stk s ws rdev rstor hread halias]
          | cons r1 rr =>
            obtain ⟨i0, t0⟩ := r1
            rw [resolveReturns_cons_noalias opName sargs i0 t0 rr cpus rb rdesc rest idx
              stk s ws rdev rstor hread halias]
            rw [ih (idx + 1) _ _ _ p hp1]
            exact getD_set_ne stk (rb + idx) p _ dv hpne
    | tensorList ts =>
      rw [resolveReturns_cons_skip_list opName sargs recs cpus rb rdesc rest idx stk s ws ts hread]
      exact ih (idx + 1) stk s ws p hp1
    | other n =>
      rw [resolveReturns_cons_skip_other opName sargs recs cpus rb rdesc rest idx stk s ws n hread]
      exact ih (idx + 1) stk s ws p hp1

/-- The resolution loop never decreases the allocation counter. -/
theorem resolveReturns_next_mono (opName : String) (sargs : List Argument)
    (recs : List (Nat × Tensor)) (cpus : List Tensor) (rb : Nat) :
    ∀ (rets : List Argument) (idx : Nat) (stk : List IValue) (s : St)
      (ws : List Warning),
      s.next ≤ ((resolveReturns opName sargs recs cpus rb rets idx stk s ws).2.1).next := by
  intro rets
  induction rets with
  | nil => intro idx stk s ws; exact Nat.le_refl _
  | cons rdesc rest ih =>
    intro idx stk s ws
    cases hread : stk.getD (rb + idx) dv with
    | tensor t =>
      cases t with
      | undef =>
        rw [resolveReturns_cons_skip_undef opName sargs recs cpus rb rdesc rest idx stk s ws hread]
        exact ih (idx + 1) stk s ws
      | mk rdev rstor =>
        cases halias : rdesc.alias_info with
        | some a =>
          cases hwr : a.is_write with
          | true =>
            cases hm : findAliasMatch sargs (some a) recs cpus with
            | some t2 =>
              rw [resolveReturns_cons_write_some opName sargs recs cpus rb rdesc rest idx
                stk s ws rdev rstor a t2 hread halias hwr hm]
              exact ih (idx + 1) _ s ws
            | none =>
              rw [resolveReturns_cons_write_none opName sargs recs cpus rb rdesc rest idx
                stk s ws rdev rstor a hread halias hwr hm]
          | false =>
            cases recs with
            | nil =>
              rw [resolveReturns_cons_read_alias_oob opName sargs cpus rb rdesc rest idx
                stk s ws rdev rstor a hread halias hwr]
            | cons r1 rr =>
              obtain ⟨i0, t0⟩ := r1
              rw [resolveReturns_cons_read_alias opName sargs i0 t0 rr cpus rb rdesc rest idx
                stk s ws rdev rstor a hread halias hwr]
              exact Nat.le_trans (tensorTo_next_mono (Tensor.mk rdev rstor) t0.device s)
                (ih (idx + 1) _ _ _)
        | none =>
          cases recs with
          | nil =>
            rw [resolveReturns_cons_noalias_oob opName sargs cpus rb rdesc rest idx
              stk s ws rdev rstor hread halias]
          | cons r1 rr =>
            obtain ⟨i0, t0⟩ := r1
            rw [resolveReturns_cons_noalias opName sargs i0 t0 rr cpus rb rdesc rest idx
              stk s ws rdev rstor hread halias]
            exact Nat.le_trans (tensorTo_next_mono (Tensor.mk rdev rstor) t0.device s)
              (ih (idx + 1) _ _ _)
    | tensorList ts =>
      rw [resolveReturns_cons_skip_list opName sargs recs cpus rb rdesc rest idx stk s ws ts hread]
      exact ih (idx + 1) stk s ws
    | other n =>
      rw [resolveReturns_cons_skip_other opName sargs recs cpus rb rdesc rest idx stk s ws n hread]
      exact ih (idx + 1) stk s ws

/-- The resolution loop never writes a storage below the allocation
counter it starts with: earlier data, in particular the storages of the
original input tensors and of the relocated tensors, is untouched. -/
theorem resolveReturns_heap_lower (opName : String) (sargs : List Argument)
    (recs : List (Nat × Tensor)) (cpus : List Tensor) (rb : Nat) :
    ∀ (rets : List Argument) (idx : Nat) (stk : List IValue) (s : St)
      (ws : List Warning) (k : Nat),
      k < s.next →
      ((resolveReturns opName sargs recs cpus rb rets idx stk s ws).2.1).heap k =
        s.heap k := by
  intro rets
  induction rets with
  | nil => intro idx stk s ws k _; rfl
  | cons rdesc rest ih =>
    intro idx stk s ws k hk
    cases hread : stk.getD (rb + idx) dv with
    | tensor t =>
      cases t with
      | undef =>
        rw [resolveReturns_cons_skip_undef opName sargs recs cpus rb rdesc rest idx stk s ws hread]
        exact ih (idx + 1) stk s ws k hk
      | mk rdev rstor =>
        cases halias : rdesc.alias_info with
        | some a =>
          cases hwr : a.is_write with
          | true =>
            cases hm : findAliasMatch sargs (some a) recs cpus with
            | some t2 =>
              rw [resolveReturns_cons_write_some opName sargs recs cpus rb rdesc rest idx
                stk s ws rdev rstor a t2 hread halias hwr hm]
              exact ih (idx + 1) _ s ws k hk
            | none =>
              rw [resolveReturns_cons_write_none opName sargs recs cpus rb rdesc rest idx
                stk s ws rdev rstor a hread halias hwr hm]
          | false =>
            cases recs with
            | nil =>
              rw [resolveReturns_cons_read_alias_oob opName sargs cpus rb rdesc rest idx
                stk s ws rdev rstor a hread halias hwr]
            | cons r1 rr =>
              obtain ⟨i0, t0⟩ := r1
              rw [resolveReturns_cons_read_alias opName sargs i0 t0 rr cpus rb rdesc rest idx
                stk s ws rdev rstor a hread halias hwr]
              have hk2 : k < (Tensor.to (Tensor.mk rdev rstor) t0.device s).1.next :=
                Nat.lt_of_lt_of_le hk (tensorTo_next_mono (Tensor.mk rdev rstor) t0.device s)
              rw [ih (idx + 1) _ _ _ k hk2]
              exact tensorTo_heap_lower (Tensor.mk rdev rstor) t0.device s k hk
        | none =>
          cases recs with
          | nil =>
            rw [resolveReturns_cons_noalias_oob opName sargs cpus rb rdesc rest idx
              stk s ws rdev rstor hread halias]
          | cons r1 rr =>
            obtain ⟨i0, t0⟩ := r1
            rw [resolveReturns_cons_noalias opName sargs i0 t0 rr cpus rb rdesc rest idx
              stk s ws rdev rstor hread halias]
            have hk2 : k < (Tensor.to (Tensor.mk rdev rstor) t0.device s).1.next :=
              Nat.lt_of_lt_of_le hk (tensorTo_next_mono (Tensor.mk rdev rstor) t0.device s)
            rw [ih (idx + 1) _ _ _ k hk2]
            exact tensorTo_heap_lower (Tensor.mk rdev rstor) t0.device s k hk
    | tensorList ts =>
      rw [resolveReturns_cons_skip_list opName sargs recs cpus rb rdesc rest idx stk s ws ts hread]
      exact ih (idx + 1) stk s ws k hk
    | other n =>
      rw [resolveReturns_cons_skip_other opName sargs recs cpus rb rdesc rest idx stk s ws n hread]
      exact ih (idx + 1) stk s ws k hk

/-- The device copy of a tensor whose storage predates the allocation
counter carries the data of that storage, and the rest of the resolution
loop preserves both the copied data and its source. -/
theorem tensorTo_copy_data (opName : String) (sargs : List Argument)
    (recs : List (Nat × Tensor)) (cpus : List Tensor) (rb : Nat)
    (rets : List Argument) (idx : Nat) (stk : List IValue) (ws : List Warning)
    (rdev : Device) (rstor : Nat) (d : Device) (s : St)
    (h : rstor < s.next) :
    ((resolveReturns opName sargs recs cpus rb rets idx stk
        (Tensor.to (Tensor.mk rdev rstor) d s).1 ws).2.1).heap
      ((Tensor.to (Tensor.mk rdev rstor) d s).2).storage = s.heap rstor := by
  by_cases hd : rdev = d
  · have hto : Tensor.to (Tensor.mk rdev rstor) d s = (s, Tensor.mk rdev rstor) := by
      simp [Tensor.to, hd]
    rw [hto]
    have h2 := resolveReturns_heap_lower opName sargs recs cpus rb rets idx stk s ws rstor h
    simpa [Tensor.storage] using h2
  · have hto : Tensor.to (Tensor.mk rdev rstor) d s =
        (⟨Function.update s.heap s.next (s.heap rstor), s.next + 1⟩,
         Tensor.mk d s.next) := by
      simp [Tensor.to, hd]
    rw [hto]
    have h2 := resolveReturns_heap_lower opName sargs recs cpus rb rets idx stk
      ⟨Function.update s.heap s.next (s.heap rstor), s.next + 1⟩ ws s.next
      (Nat.lt_succ_self s.next)
    have h3 : (⟨Function.update s.heap s.next (s.heap rstor), s.next + 1⟩ : St).heap s.next
        = s.heap rstor := Function.update_same _ _ _
    simp only [Tensor.storage]
    rw [h2, h3]

/-- Per slot characterization of a successful resolution loop run: a
defined tensor slot with a write alias ends up holding the original
tensor found by the alias match search, and a defined tensor slot
without a write alias ends up holding a tensor residing on the device of
the first recorded tensor argument whose final data is the data the
host result tensor held when the loop reached it. -/
theorem resolveReturns_slot_spec (opName : String) (sargs : List Argument)
    (recs : List (Nat × Tensor)) (cpus : List Tensor) (rb : Nat) :
    ∀ (rets : List Argument) (idx : Nat) (stk : List IValue) (s : St)
      (ws : List Warning) (j : Nat) (ret : Tensor),
      (resolveReturns opName sargs recs cpus rb rets idx stk s ws).2.2.2 = none →
      j < rets.length →
      stk.getD (rb + (idx + j)) dv = IValue.tensor ret →
      ret.defined = true →
      ((∀ a, (rets.getD j ⟨none⟩).alias_info = some a → a.is_write = true →
        ∃ t, findAliasMatch sargs (some a) recs cpus = some t ∧
          ((resolveReturns opName sargs recs cpus rb rets idx stk s ws).1).getD
            (rb + (idx + j)) dv = IValue.tensor t)
      ∧ (writeAliased ((rets.getD j ⟨none⟩).alias_info) = false →
         ∀ i0 t0 rrest, recs = (i0, t0) :: rrest →
         ∃ u, ((resolveReturns opName sargs recs cpus rb rets idx stk s ws).1).getD
            (rb + (idx + j)) dv = IValue.tensor u ∧ u.device = t0.device ∧
          (ret.storage < s.next →
            ((resolveReturns opName sargs recs cpus rb rets idx stk s ws).2.1).heap
              u.storage = s.heap ret.storage))) := by
  intro rets
  induction rets with
  | nil => intro idx stk s ws j ret _ hj; exact absurd hj (by simp)
  | cons rdesc rest ih =>
    intro idx stk s ws j ret herr hj hslot hdef
    cases j with
    | zero =>
      simp only [Nat.add_zero] at hslot ⊢
      simp only [List.getD_cons_zero]
      cases ret with
      | undef => exact absurd hdef (by simp [Tensor.defined])
      | mk rdev rstor =>
        have hlen : rb + idx < stk.length := getD_tensor_lt stk (rb + idx) _ hslot
        cases halias2 : rdesc.alias_info with
        | some a0 =>
          cases hwr : a0.is_write with
          | true =>
            cases hm : findAliasMatch sargs (some a0) recs cpus with
            | none =>
              have hred := resolveReturns_cons_write_none opName sargs recs cpus rb rdesc
                rest idx stk s ws rdev rstor a0 hslot halias2 hwr hm
              rw [hred] at herr
              simp at herr
            | some t2 =>
              have hred := resolveReturns_cons_write_some opName sargs recs cpus rb rdesc
                rest idx stk s ws rdev rstor a0 t2 hslot halias2 hwr hm
              constructor
              · intro a ha hw2
                injection ha with ha2
                subst ha2
                refine ⟨t2, hm, ?_⟩
                rw [hred, resolveReturns_stack_lower opName sargs recs cpus rb rest
                  (idx + 1) _ s ws (rb + idx) (by omega)]
                exact getD_set_self stk (rb + idx) _ dv hlen
              · intro hnw
                simp [writeAliased, hwr] at hnw
          | false =>
            constructor
            · intro a ha hw2
              injection ha with ha2
              subst ha2
              rw [hwr] at hw2
              exact absurd hw2 (by simp)
            · intro hnw i0 t0 rrest hrecs
              subst hrecs
              have hred := resolveReturns_cons_read_alias opName sargs i0 t0 rrest cpus rb
                rdesc rest idx stk s ws rdev rstor a0 hslot halias2 hwr
              refine ⟨(Tensor.to (Tensor.mk rdev rstor) t0.device s).2, ?_,
                tensorTo_device rdev rstor t0.device s, ?_⟩
              · rw [hred, resolveReturns_stack_lower opName sargs ((i0, t0) :: rrest) cpus rb
                  rest (idx + 1) _ _ _ (rb + idx) (by omega)]
                exact getD_set_self stk (rb + idx) _ dv hlen
              · intro hst
                rw [hred]
                exact tensorTo_copy_data opName sargs ((i0, t0) :: rrest) cpus rb rest
                  (idx + 1)
                  (stk.set (rb + idx)
                    (IValue.tensor (Tensor.to (Tensor.mk rdev rstor) t0.device s).2))
                  (ws ++ [⟨opName, t0.device⟩]) rdev rstor t0.device s hst
        | none =>
          constructor
          · intro a ha _
            exact Option.noConfusion ha
          · intro hnw i0 t0 rrest hrecs
            subst hrecs
            have hred := resolveReturns_cons_noalias opName sargs i0 t0 rrest cpus rb
              rdesc rest idx stk s ws rdev rstor hslot halias2
            refine ⟨(Tensor.to (Tensor.mk rdev rstor) t0.device s).2, ?_,
              tensorTo_device rdev rstor t0.device s, ?_⟩
            · rw [hred, resolveReturns_stack_lower opName sargs ((i0, t0) :: rrest) cpus rb
                rest (idx + 1) _ _ _ (rb + idx) (by omega)]
              exact getD_set_self stk (rb + idx) _ dv hlen
            · intro hst
              rw [hred]
              exact tensorTo_copy_data opName sargs ((i0, t0) :: rrest) cpus rb rest
                (idx + 1)
                (stk.set (rb + idx)
                  (IValue.tensor (Tensor.to (Tensor.mk rdev rstor) t0.device s).2))
                ws rdev rstor t0.device s hst
    | succ j2 =>
      have hj2 : j2 < rest.length := by simpa using hj
      have hpos : idx + (j2 + 1) = (idx + 1) + j2 := by omega
      rw [hpos] at hslot
      simp only [List.getD_cons_succ, hpos]
      cases hread : stk.getD (rb + idx) dv with
      | tensor t =>
        cases t with
        | undef =>
          have hred := resolveReturns_cons_skip_undef opName sargs recs cpus rb rdesc
            rest idx stk s ws hread
          rw [hred] at herr ⊢
          exact ih (idx + 1) stk s ws j2 ret herr hj2 hslot hdef
        | mk rdev rstor =>
          cases halias2 : rdesc.alias_info with
          | some a0 =>
            cases hwr : a0.is_write with
            | true =>
              cases hm : findAliasMatch sargs (some a0) recs cpus with
              | none =>
                have hred := resolveReturns_cons_write_none opName sargs recs cpus rb rdesc
                  rest idx stk s ws rdev rstor a0 hread halias2 hwr hm
                rw [hred] at herr
                simp at herr
              | some t2 =>
                have hred := resolveReturns_cons_write_some opName sargs recs cpus rb rdesc
                  rest idx stk s ws rdev rstor a0 t2 hread halias2 hwr hm
                have hslot2 : (stk.set (rb + idx) (IValue.tensor t2)).getD
                    (rb + ((idx + 1) + j2)) dv = IValue.tensor ret := by
                  rw [getD_set_ne stk (rb + idx) _ _ dv (by omega)]
                  exact hslot
                rw [hred] at herr ⊢
                exact ih (idx + 1) _ s ws j2 ret herr hj2 hslot2 hdef
            | false =>
              cases recs with
              | nil =>
                have hred := resolveReturns_cons_read_alias_oob opName sargs cpus rb rdesc
                  rest idx stk s ws rdev rstor a0 hread halias2 hwr
                rw [hred] at herr
                simp at herr
              | cons r1 rr =>
                obtain ⟨i1, t1⟩ := r1
                have hred := resolveReturns_cons_read_alias opName sargs i1 t1 rr cpus rb
                  rdesc rest idx stk s ws rdev rstor a0 hread halias2 hwr
                have hslot2 : (stk.set (rb + idx)
                    (IValue.tensor (Tensor.to (Tensor.mk rdev rstor) t1.device s).2)).getD
                    (rb + ((idx + 1) + j2)) dv = IValue.tensor ret := by
                  rw [getD_set_ne stk (rb + idx) _ _ dv (by omega)]
                  exact hslot
                rw [hred] at herr ⊢
                obtain ⟨ihp1, ihp2⟩ := ih (idx + 1) _ _ _ j2 ret herr hj2 hslot2 hdef
                refine ⟨ihp1, ?_⟩
                intro hnw i2 t2 rrest2 hrecs2
                obtain ⟨u, hu, hdev2, hdata⟩ := ihp2 hnw i2 t2 rrest2 hrecs2
                refine ⟨u, hu, hdev2, ?_⟩
                intro hst
                rw [hdata (Nat.lt_of_lt_of_le hst
                  (tensorTo_next_mono (Tensor.mk rdev rstor) t1.device s))]
                exact tensorTo_heap_lower (Tensor.mk rdev rstor) t1.device s ret.storage hst
          | none =>
            cases recs with
            | nil =>
              have hred := resolveReturns_cons_noalias_oob opName sargs cpus rb rdesc
                rest idx stk s ws rdev rstor hread halias2
              rw [hred] at herr
              simp at herr
            | cons r1 rr =>
              obtain ⟨i1, t1⟩ := r1
              have hred := resolveReturns_cons_noalias opName sargs i1 t1 rr cpus rb
                rdesc rest idx stk s ws rdev rstor hread halias2
              have hslot2 : (stk.set (rb + idx)
                  (IValue.tensor (Tensor.to (Tensor.mk rdev rstor) t1.device s).2)).getD
                  (rb + ((idx + 1) + j2)) dv = IValue.tensor ret := by
                rw [getD_set_ne stk (rb + idx) _ _ dv (by omega)]
                exact hslot
              rw [hred] at herr ⊢
              obtain ⟨ihp1, ihp2⟩ := ih (idx + 1) _ _ _ j2 ret herr hj2 hslot2 hdef
              refine ⟨ihp1, ?_⟩
              intro hnw i2 t2 rrest2 hrecs2
              obtain ⟨u, hu, hdev2, hdata⟩ := ihp2 hnw i2 t2 rrest2 hrecs2
              refine ⟨u, hu, hdev2, ?_⟩
              intro hst
              rw [hdata (Nat.lt_of_lt_of_le hst
                (tensorTo_next_mono (Tensor.mk rdev rstor) t1.device s))]
              exact tensorTo_heap_lower (Tensor.mk rdev rstor) t1.device s ret.storage hst
      | tensorList ts =>
        have hred := resolveReturns_cons_skip_list opName sargs recs cpus rb rdesc
          rest idx stk s ws ts hread
        rw [hred] at herr ⊢
        exact ih (idx + 1) stk s ws j2 ret herr hj2 hslot hdef
      | other n =>
        have hred := resolveReturns_cons_skip_other opName sargs recs cpus rb rdesc
          rest idx stk s ws n hread
        rw [hred] at herr ⊢
        exact ih (idx + 1) stk s ws j2 ret herr hj2 hslot hdef

/-- With at least one recorded tensor argument the resolution loop can
never abort with the out of range marker: every access to the first
recorded tensor argument is in bounds. -/
theorem resolveReturns_no_oob (opName : String) (sargs : List Argument)
    (i0 : Nat) (t0 : Tensor) (rr : List (Nat × Tensor)) (cpus : List Tensor) (rb : Nat) :
    ∀ (rets : List Argument) (idx : Nat) (stk : List IValue) (s : St) (ws : List Warning),
      (resolveReturns opName sargs ((i0, t0) :: rr) cpus rb rets idx stk s ws).2.2.2 ≠
        some FallbackError.indexOutOfRange := by
  intro rets
  induction rets with
  | nil => intro idx stk s ws; simp [resolveReturns]
  | cons rdesc rest ih =>
    intro idx stk s ws
    cases hread : stk.getD (rb + idx) dv with
    | tensor t =>
      cases t with
      | undef =>
        rw [resolveReturns_cons_skip_undef opName sargs ((i0, t0) :: rr) cpus rb rdesc
          rest idx stk s ws hread]
        exact ih (idx + 1) stk s ws
      | mk rdev rstor =>
        cases halias2 : rdesc.alias_info with
        | some a0 =>
          cases hwr : a0.is_write with
          | true =>
            cases hm : findAliasMatch sargs (some a0) ((i0, t0) :: rr) cpus with
            | some t2 =>
              rw [resolveReturns_cons_write_some opName sargs ((i0, t0) :: rr) cpus rb
                rdesc rest idx stk s ws rdev rstor a0 t2 hread halias2 hwr hm]
              exact ih (idx + 1) _ s ws
            | none =>
              rw [resolveReturns_cons_write_none opName sargs ((i0, t0) :: rr) cpus rb
                rdesc rest idx stk s ws rdev rstor a0 hread halias2 hwr hm]
              simp
          | false =>
            rw [resolveReturns_cons_read_alias opName sargs i0 t0 rr cpus rb rdesc rest
              idx stk s ws rdev rstor a0 hread halias2 hwr]
            exact ih (idx + 1) _ _ _
        | none =>
          rw [resolveReturns_cons_noalias opName sargs i0 t0 rr cpus rb rdesc rest idx
            stk s ws rdev rstor hread halias2]
          exact ih (idx + 1) _ _ _
    | tensorList ts =>
      rw [resolveReturns_cons_skip_list opName sargs ((i0, t0) :: rr) cpus rb rdesc rest
        idx stk s ws ts hread]
      exact ih (idx + 1) stk s ws
    | other n =>
      rw [resolveReturns_cons_skip_other opName sargs ((i0, t0) :: rr) cpus rb rdesc rest
        idx stk s ws n hread]
      exact ih (idx + 1) stk s ws

/-- When the resolution loop aborts with the schema inconsistency error,
the error names the operator of the call and a slot at or after the
starting one, and no return slot at or after the failing one has been
written: the loop stops at the failing step. -/
theorem resolveReturns_abort_freeze (opName : String) (sargs : List Argument)
    (recs : List (Nat × Tensor)) (cpus : List Tensor) (rb : Nat) :
    ∀ (rets : List Argument) (idx : Nat) (stk : List IValue) (s : St) (ws : List Warning)
      (nm : String) (j : Nat),
      (resolveReturns opName sargs recs cpus rb rets idx stk s ws).2.2.2 =
        some (FallbackError.schemaInconsistency nm j) →
      nm = opName ∧ idx ≤ j ∧
      ∀ p, rb + j ≤ p →
        ((resolveReturns opName sargs recs cpus rb rets idx stk s ws).1).getD p dv =
          stk.getD p dv := by
  intro rets
  induction rets with
  | nil => intro idx stk s ws nm j herr; exact absurd herr (by simp [resolveReturns])
  | cons rdesc rest ih =>
    intro idx stk s ws nm j herr
    cases hread : stk.getD (rb + idx) dv with
    | tensor t =>
      cases t with
      | undef =>
        have hred := resolveReturns_cons_skip_undef opName sargs recs cpus rb rdesc
          rest idx stk s ws hread
        rw [hred] at herr ⊢
        obtain ⟨hnm, hle, hfr⟩ := ih (idx + 1) stk s ws nm j herr
        exact ⟨hnm, by omega, hfr⟩
      | mk rdev rstor =>
        cases halias2 : rdesc.alias_info with
        | some a0 =>
          cases hwr : a0.is_write with
          | true =>
            cases hm : findAliasMatch sargs (some a0) recs cpus with
            | some t2 =>
              have hred := resolveReturns_cons_write_some opName sargs recs cpus rb rdesc
                rest idx stk s ws rdev rstor a0 t2 hread halias2 hwr hm
              rw [hred] at herr ⊢
              obtain ⟨hnm, hle, hfr⟩ := ih (idx + 1) _ s ws nm j herr
              refine ⟨hnm, by omega, ?_⟩
              intro p hp
              rw [hfr p hp, getD_set_ne stk (rb + idx) p _ dv (by omega)]
            | none =>
              have hred := resolveReturns_cons_write_none opName sargs recs cpus rb rdesc
                rest idx stk s ws rdev rstor a0 hread halias2 hwr hm
              rw [hred] at herr ⊢
              have herr2 : some (FallbackError.schemaInconsistency opName idx) =
                  some (FallbackError.schemaInconsistency nm j) := herr
              injection herr2 with h2
              injection h2 with hnm hj
              refine ⟨hnm.symm, by omega, ?_⟩
              intro p hp
              rfl
          | false =>
            cases recs with
            | nil =>
              have hred := resolveReturns_cons_read_alias_oob opName sargs cpus rb rdesc
                rest idx stk s ws rdev rstor a0 hread halias2 hwr
              rw [hred] at herr
              have herr2 : some FallbackError.indexOutOfRange =
                  some (FallbackError.schemaInconsistency nm j) := herr
              injection herr2 with h2
              exact FallbackError.noConfusion h2
            | cons r1 rrest =>
              obtain ⟨i1, t1⟩ := r1
              have hred := resolveReturns_cons_read_alias opName sargs i1 t1 rrest cpus rb
                rdesc rest idx stk s ws rdev rstor a0 hread halias2 hwr
              rw [hred] at herr ⊢
              obtain ⟨hnm, hle, hfr⟩ := ih (idx + 1) _ _ _ nm j herr
              refine ⟨hnm, by omega, ?_⟩
              intro p hp
              rw [hfr p hp, getD_set_ne stk (rb + idx) p _ dv (by omega)]
        | none =>
          cases recs with
          | nil =>
            have hred := resolveReturns_cons_noalias_oob opName sargs cpus rb rdesc
              rest idx stk s ws rdev rstor hread halias2
            rw [hred] at herr
            have herr2 : some FallbackError.indexOutOfRange =
                some (FallbackError.schemaInconsistency nm j) := herr
            injection herr2 with h2
            exact FallbackError.noConfusion h2
          | cons r1 rrest =>
            obtain ⟨i1, t1⟩ := r1
            have hred := resolveReturns_cons_noalias opName sargs i1 t1 rrest cpus rb
              rdesc rest idx stk s ws rdev rstor hread halias2
            rw [hred] at herr ⊢
            obtain ⟨hnm, hle, hfr⟩ := ih (idx + 1) _ _ _ nm j herr
            refine ⟨hnm, by omega, ?_⟩
            intro p hp
            rw [hfr p hp, getD_set_ne stk (rb + idx) p _ dv (by omega)]
    | tensorList ts =>
      have hred := resolveReturns_cons_skip_list opName sargs recs cpus rb rdesc
        rest idx stk s ws ts hread
      rw [hred] at herr ⊢
      obtain ⟨hnm, hle, hfr⟩ := ih (idx + 1) stk s ws nm j herr
      exact ⟨hnm, by omega, hfr⟩
    | other n =>
      have hred := resolveReturns_cons_skip_other opName sargs recs cpus rb rdesc
        rest idx stk s ws n hread
      rw [hred] at herr ⊢
      obtain ⟨hnm, hle, hfr⟩ := ih (idx + 1) stk s ws nm j herr
      exact ⟨hnm, by omega, hfr⟩

/-- When some return slot holds a defined tensor whose alias annotation
is a write alias that no recorded tensor argument matches, the
resolution loop aborts with the schema inconsistency error naming the
operator and a slot with exactly those properties; the mismatch is never
silently resolved. Stated with at least one recorded tensor argument, so
that the copy path cannot abort first with the out of range marker. -/
theorem resolveReturns_schema_abort (opName : String) (sargs : List Argument)
    (i0 : Nat) (t0 : Tensor) (rr : List (Nat × Tensor)) (cpus : List Tensor) (rb : Nat) :
    ∀ (rets : List Argument) (idx : Nat) (stk : List IValue) (s : St) (ws : List Warning),
      (∃ j a ret, j < rets.length ∧ (rets.getD j ⟨none⟩).alias_info = some a ∧
        a.is_write = true ∧ stk.getD (rb + (idx + j)) dv = IValue.tensor ret ∧
        ret.defined = true ∧ findAliasMatch sargs (some a) ((i0, t0) :: rr) cpus = none) →
      ∃ j0 a0 ret0, j0 < rets.length ∧
        (rets.getD j0 ⟨none⟩).alias_info = some a0 ∧ a0.is_write = true ∧
        stk.getD (rb + (idx + j0)) dv = IValue.tensor ret0 ∧ ret0.defined = true ∧
        findAliasMatch sargs (some a0) ((i0, t0) :: rr) cpus = none ∧
        (resolveReturns opName sargs ((i0, t0) :: rr) cpus rb rets idx stk s ws).2.2.2 =
          some (FallbackError.schemaInconsistency opName (idx + j0)) := by
  intro rets
  induction rets with
  | nil =>
    intro idx stk s ws hbad
    obtain ⟨j, a, ret, hj, _⟩ := hbad
    exact absurd hj (by simp)
  | cons rdesc rest ih =>
    intro idx stk s ws hbad
    obtain ⟨j, a, ret, hj, halias, hw, hslot, hdef, hnone⟩ := hbad
    cases hread : stk.getD (rb + idx) dv with
    | tensor t =>
      cases t with
      | undef =>
        have hjne : j ≠ 0 := by
          intro h0; subst h0
          simp only [Nat.add_zero] at hslot
          rw [hread] at hslot
          injection hslot with h2
          rw [← h2] at hdef
          simp [Tensor.defined] at hdef
        obtain ⟨j2, rfl⟩ : ∃ j2, j = j2 + 1 := ⟨j - 1, by omega⟩
        have hpos : idx + (j2 + 1) = (idx + 1) + j2 := by omega
        rw [hpos] at hslot
        have hred := resolveReturns_cons_skip_undef opName sargs ((i0, t0) :: rr) cpus rb
          rdesc rest idx stk s ws hread
        obtain ⟨j0, a0, ret0, hj0, halias0, hw0, hslot0, hdef0, hnone0, herr0⟩ :=
          ih (idx + 1) stk s ws ⟨j2, a, ret, by simpa using hj,
            by simpa [List.getD_cons_succ] using halias, hw, hslot, hdef, hnone⟩
        have hpos0 : idx + (j0 + 1) = (idx + 1) + j0 := by omega
        refine ⟨j0 + 1, a0, ret0, by simpa using Nat.succ_lt_succ hj0,
          by simpa [List.getD_cons_succ] using halias0, hw0, ?_, hdef0, hnone0, ?_⟩
        · rw [hpos0]; exact hslot0
        · rw [hred, hpos0]; exact herr0
      | mk rdev rstor =>
        cases halias2 : rdesc.alias_info with
        | some a1 =>
          cases hwr : a1.is_write with
          | true =>
            cases hm : findAliasMatch sargs (some a1) ((i0, t0) :: rr) cpus with
            | none =>
              have hred := resolveReturns_cons_write_none opName sargs ((i0, t0) :: rr)
                cpus rb rdesc rest idx stk s ws rdev rstor a1 hread halias2 hwr hm
              refine ⟨0, a1, Tensor.mk rdev rstor, by simp, ?_, hwr, ?_,
                by simp [Tensor.defined], hm, ?_⟩
              · rw [List.getD_cons_zero]; exact halias2
              · simp only [Nat.add_zero]; exact hread
              · rw [hred]; simp
            | some t2 =>
              have hjne : j ≠ 0 := by
                intro h0; subst h0
                rw [List.getD_cons_zero, halias2] at halias
                injection halias with h2
                subst h2
                rw [hm] at hnone
                exact Option.noConfusion hnone
              obtain ⟨j2, rfl⟩ : ∃ j2, j = j2 + 1 := ⟨j - 1, by omega⟩
              have hpos : idx + (j2 + 1) = (idx + 1) + j2 := by omega
              rw [hpos] at hslot
              have hslotB : (stk.set (rb + idx) (IValue.tensor t2)).getD
                  (rb + ((idx + 1) + j2)) dv = IValue.tensor ret := by
                rw [getD_set_ne stk (rb + idx) _ _ dv (by omega)]
                exact hslot
              have hred := resolveReturns_cons_write_some opName sargs ((i0, t0) :: rr)
                cpus rb rdesc rest idx stk s ws rdev rstor a1 t2 hread halias2 hwr hm
              obtain ⟨j0, a0, ret0, hj0, halias0, hw0, hslot0, hdef0, hnone0, herr0⟩ :=
                ih (idx + 1) (stk.set (rb + idx) (IValue.tensor t2)) s ws
                  ⟨j2, a, ret, by simpa using hj,
                    by simpa [List.getD_cons_succ] using halias, hw, hslotB, hdef, hnone⟩
              have hpos0 : idx + (j0 + 1) = (idx + 1) + j0 := by omega
              have hslot0B : stk.getD (rb + ((idx + 1) + j0)) dv = IValue.tensor ret0 := by
                rw [← getD_set_ne stk (rb + idx) (rb + ((idx + 1) + j0))
                  (IValue.tensor t2) dv (by omega)]
                exact hslot0
              refine ⟨j0 + 1, a0, ret0, by simpa using Nat.succ_lt_succ hj0,
                by simpa [List.getD_cons_succ] using halias0, hw0, ?_, hdef0, hnone0, ?_⟩
              · rw [hpos0]; exact hslot0B
              · rw [hred, hpos0]; exact herr0
          | false =>
            have hjne : j ≠ 0 := by
              intro h0; subst h0
              rw [List.getD_cons_zero, halias2] at halias
              injection halias with h2
              subst h2
              rw [hwr] at hw
              exact absurd hw (by simp)
            obtain ⟨j2, rfl⟩ : ∃ j2, j = j2 + 1 := ⟨j - 1, by omega⟩
            have hpos : idx + (j2 + 1) = (idx + 1) + j2 := by omega
            rw [hpos] at hslot
            have hslotB : (stk.set (rb + idx)
                (IValue.tensor (Tensor.to (Tensor.mk rdev rstor) t0.device s).2)).getD
                (rb + ((idx + 1) + j2)) dv = IValue.tensor ret := by
              rw [getD_set_ne stk (rb + idx) _ _ dv (by omega)]
              exact hslot
            have hred := resolveReturns_cons_read_alias opName sargs i0 t0 rr cpus rb
              rdesc rest idx stk s ws rdev rstor a1 hread halias2 hwr
            obtain ⟨j0, a0, ret0, hj0, halias0, hw0, hslot0, hdef0, hnone0, herr0⟩ :=
              ih (idx + 1)
                (stk.set (rb + idx)
                  (IValue.tensor (Tensor.to (Tensor.mk rdev rstor) t0.device s).2))
                (Tensor.to (Tensor.mk rdev rstor) t0.device s).1
                (ws ++ [⟨opName, t0.device⟩])
                ⟨j2, a, ret, by simpa using hj,
                  by simpa [List.getD_cons_succ] using halias, hw, hslotB, hdef, hnone⟩
            have hpos0 : idx + (j0 + 1) = (idx + 1) + j0 := by omega
            have hslot0B : stk.getD (rb + ((idx + 1) + j0)) dv = IValue.tensor ret0 := by
              rw [← getD_set_ne stk (rb + idx) (rb + ((idx + 1) + j0))
                (IValue.tensor (Tensor.to (Tensor.mk rdev rstor) t0.device s).2) dv (by omega)]
              exact hslot0
            refine ⟨j0 + 1, a0, ret0, by simpa using Nat.succ_lt_succ hj0,
              by simpa [List.getD_cons_succ] using halias0, hw0, ?_, hdef0, hnone0, ?_⟩
            · rw [hpos0]; exact hslot0B
            · rw [hred, hpos0]; exact herr0
        | none =>
          have hjne : j ≠ 0 := by
            intro h0; subst h0
            rw [List.getD_cons_zero, halias2] at halias
            exact Option.noConfusion halias
          obtain ⟨j2, rfl⟩ : ∃ j2, j = j2 + 1 := ⟨j - 1, by omega⟩
          have hpos : idx + (j2 + 1) = (idx + 1) + j2 := by omega
          rw [hpos] at hslot
          have hslotB : (stk.set (rb + idx)
              (IValue.tensor (Tensor.to (Tensor.mk rdev rstor) t0.device s).2)).getD
              (rb + ((idx + 1) + j2)) dv = IValue.tensor ret := by
            rw [getD_set_ne stk (rb + idx) _ _ dv (by omega)]
            exact hslot
          have hred := resolveReturns_cons_noalias opName sargs i0 t0 rr cpus rb
            rdesc rest idx stk s ws rdev rstor hread halias2
          obtain ⟨j0, a0, ret0, hj0, halias0, hw0, hslot0, hdef0, hnone0, herr0⟩ :=
            ih (idx + 1)
              (stk.set (rb + idx)
                (IValue.tensor (Tensor.to (Tensor.mk rdev rstor) t0.device s).2))
              (Tensor.to (Tensor.mk rdev rstor) t0.device s).1 ws
              ⟨j2, a, ret, by simpa using hj,
                by simpa [List.getD_cons_succ] using halias, hw, hslotB, hdef, hnone⟩
          have hpos0 : idx + (j0 + 1) = (idx + 1) + j0 := by omega
          have hslot0B : stk.getD (rb + ((idx + 1) + j0)) dv = IValue.tensor ret0 := by
            rw [← getD_set_ne stk (rb + idx) (rb + ((idx + 1) + j0))
              (IValue.tensor (Tensor.to (Tensor.mk rdev rstor) t0.device s).2) dv (by omega)]
            exact hslot0
          refine ⟨j0 + 1, a0, ret0, by simpa using Nat.succ_lt_succ hj0,
            by simpa [List.getD_cons_succ] using halias0, hw0, ?_, hdef0, hnone0, ?_⟩
          · rw [hpos0]; exact hslot0B
          · rw [hred, hpos0]; exact herr0
    | tensorList ts =>
      have hjne : j ≠ 0 := by
        intro h0; subst h0
        simp only [Nat.add_zero] at hslot
        rw [hread] at hslot
        exact IValue.noConfusion hslot
      obtain ⟨j2, rfl⟩ : ∃ j2, j = j2 + 1 := ⟨j - 1, by omega⟩
      have hpos : idx + (j2 + 1) = (idx + 1) + j2 := by omega
      rw [hpos] at hslot
      have hred := resolveReturns_cons_skip_list opName sargs ((i0, t0) :: rr) cpus rb
        rdesc rest idx stk s ws ts hread
      obtain ⟨j0, a0, ret0, hj0, halias0, hw0, hslot0, hdef0, hnone0, herr0⟩ :=
        ih (idx + 1) stk s ws ⟨j2, a, ret, by simpa using hj,
          by simpa [List.getD_cons_succ] using halias, hw, hslot, hdef, hnone⟩
      have hpos0 : idx + (j0 + 1) = (idx + 1) + j0 := by omega
      refine ⟨j0 + 1, a0, ret0, by simpa using Nat.succ_lt_succ hj0,
        by simpa [List.getD_cons_succ] using halias0, hw0, ?_, hdef0, hnone0, ?_⟩
      · rw [hpos0]; exact hslot0
      · rw [hred, hpos0]; exact herr0
    | other n =>
      have hjne : j ≠ 0 := by
        intro h0; subst h0
        simp only [Nat.add_zero] at hslot
        rw [hread] at hslot
        exact IValue.noConfusion hslot
      obtain ⟨j2, rfl⟩ : ∃ j2, j = j2 + 1 := ⟨j - 1, by omega⟩
      have hpos : idx + (j2 + 1) = (idx + 1) + j2 := by omega
      rw [hpos] at hslot
      have hred := resolveReturns_cons_skip_other opName sargs ((i0, t0) :: rr) cpus rb
        rdesc rest idx stk s ws n hread
      obtain ⟨j0, a0, ret0, hj0, halias0, hw0, hslot0, hdef0, hnone0, herr0⟩ :=
        ih (idx + 1) stk s ws ⟨j2, a, ret, by simpa using hj,
          by simpa [List.getD_cons_succ] using halias, hw, hslot, hdef, hnone⟩
      have hpos0 : idx + (j0 + 1) = (idx + 1) + j0 := by omega
      refine ⟨j0 + 1, a0, ret0, by simpa using Nat.succ_lt_succ hj0,
        by simpa [List.getD_cons_succ] using halias0, hw0, ?_, hdef0, hnone0, ?_⟩
      · rw [hpos0]; exact hslot0
      · rw [hred, hpos0]; exact herr0

/-
The claims about cpu_fallback.
-/

/-- C1: for an operator call whose schema declares a write alias on a
defined tensor return that matches the alias annotation of a recorded
tensor argument, after cpu_fallback returns, that return slot holds the
exact original, pre relocation input tensor object read from the
original argument window, not the host computed tensor and not a newly
allocated tensor. -/
theorem cpu_fallback_write_alias_identity
    (prim : St → List Tensor → St × List Tensor)
    (kernel : St → List IValue → St × List IValue)
    (op : FunctionSchema) (stack : List IValue) (s : St)
    (p : Prepared) (r : FallbackResult) (j : Nat) (a : AliasInfo) (ret : Tensor)
    (hp : fbPrepare prim kernel op stack s = p)
    (hr : cpu_fallback prim kernel op stack s = r)
    (hok : r.err = none)
    (hj : j < op.returns.length)
    (halias : (op.returns.getD j ⟨none⟩).alias_info = some a)
    (hw : a.is_write = true)
    (hslot : p.stack3.getD (p.stack3.length - op.returns.length + j) dv = IValue.tensor ret)
    (hdef : ret.defined = true) :
    ∃ t, findAliasMatch op.arguments (some a) p.recs p.cpus = some t ∧
      r.stack.getD (p.stack3.length - op.returns.length + j) dv = IValue.tensor t ∧
      ∃ i, (i, t) ∈ p.recs ∧
        (stack.drop (stack.length - op.arguments.length)).getD i dv = IValue.tensor t := by
  subst hp
  subst hr
  have hok2 : (resolveReturns op.name op.arguments
      (fbPrepare prim kernel op stack s).recs
      (fbPrepare prim kernel op stack s).cpus
      ((fbPrepare prim kernel op stack s).stack3.length - op.returns.length)
      op.returns 0 (fbPrepare prim kernel op stack s).stack3
      (fbPrepare prim kernel op stack s).s3 []).2.2.2 = none := hok
  have hslot2 : (fbPrepare prim kernel op stack s).stack3.getD
      ((fbPrepare prim kernel op stack s).stack3.length - op.returns.length + (0 + j)) dv =
      IValue.tensor ret := by
    simpa using hslot
  obtain ⟨part1, _⟩ := resolveReturns_slot_spec op.name op.arguments
    (fbPrepare prim kernel op stack s).recs
    (fbPrepare prim kernel op stack s).cpus
    ((fbPrepare prim kernel op stack s).stack3.length - op.returns.length)
    op.returns 0 (fbPrepare prim kernel op stack s).stack3
    (fbPrepare prim kernel op stack s).s3 [] j ret hok2 hj hslot2 hdef
  obtain ⟨t, hm, hslotF⟩ := part1 a halias hw
  obtain ⟨i, hmem⟩ := findAliasMatch_mem op.arguments (some a)
    (fbPrepare prim kernel op stack s).recs
    (fbPrepare prim kernel op stack s).cpus t hm
  have hmem2 : (i, t) ∈ (gatherArgs prim s 0
      (stack.drop (stack.length - op.arguments.length))).2.2 := by
    rw [← fbPrepare_recs prim kernel op stack s]
    exact hmem
  obtain ⟨hle, hget⟩ := gatherArgs_mem prim
    (stack.drop (stack.length - op.arguments.length)) s 0 (i, t) hmem2
  refine ⟨t, hm, ?_, i, hmem, ?_⟩
  · have h3 : (cpu_fallback prim kernel op stack s).stack.getD
        ((fbPrepare prim kernel op stack s).stack3.length - op.returns.length + (0 + j)) dv =
        IValue.tensor t := hslotF
    simpa using h3
  · simpa using hget

/-- Witness for C1 on the concrete in place call opA: the return slot
holds the original backend tensor. -/
theorem cpu_fallback_write_alias_identity_witness :
    ∃ t, findAliasMatch opA.arguments (some ⟨0, true⟩)
        (fbPrepare toCpuPrim mutKernel opA stackA stA).recs
        (fbPrepare toCpuPrim mutKernel opA stackA stA).cpus = some t ∧
      (cpu_fallback toCpuPrim mutKernel opA stackA stA).stack.getD
        ((fbPrepare toCpuPrim mutKernel opA stackA stA).stack3.length -
          opA.returns.length + 0) dv = IValue.tensor t ∧
      ∃ i, (i, t) ∈ (fbPrepare toCpuPrim mutKernel opA stackA stA).recs ∧
        (stackA.drop (stackA.length - opA.arguments.length)).getD i dv =
          IValue.tensor t :=
  cpu_fallback_write_alias_identity toCpuPrim mutKernel opA stackA stA _ _ 0
    ⟨0, true⟩ (Tensor.mk Device.cpu 2) rfl rfl (by decide) (by decide) (by decide)
    (by decide) (by decide) (by decide)

/-- C2: for a recorded tensor argument whose schema alias annotation is
a write alias, cpu_fallback copies the data of the corresponding
relocated tensor, as left by the reference kernel, into the storage of
the original input tensor in place, and that storage still holds the
host computed result when cpu_fallback returns; the tensor metadata, in
particular the device, is immutable in this model, so the input never
changes device. The interference hypotheses require the other write
aliased arguments to target distinct storages, which the source assumes
as well when it copies one argument at a time. -/
theorem cpu_fallback_write_arg_copy_back
    (prim : St → List Tensor → St × List Tensor)
    (kernel : St → List IValue → St × List IValue)
    (op : FunctionSchema) (stack : List IValue) (s : St)
    (p : Prepared) (r : FallbackResult) (i tidx : Nat) (orig cpu : Tensor)
    (hp : fbPrepare prim kernel op stack s = p)
    (hr : cpu_fallback prim kernel op stack s = r)
    (hi : i < p.recs.length)
    (hrec : p.recs.getD i (0, Tensor.undef) = (tidx, orig))
    (hcpu : p.cpus.getD i Tensor.undef = cpu)
    (hwa : writeAliased ((op.arguments.getD tidx ⟨none⟩).alias_info) = true)
    (hod : orig.defined = true) (hcd : cpu.defined = true)
    (hdist : ∀ j2, j2 < p.recs.length → j2 ≠ i →
      writeAliased ((op.arguments.getD (p.recs.getD j2 (0, Tensor.undef)).1 ⟨none⟩).alias_info) = true →
      ((p.recs.getD j2 (0, Tensor.undef)).2).storage ≠ orig.storage ∧
      ((p.recs.getD j2 (0, Tensor.undef)).2).storage ≠ cpu.storage)
    (hlow : orig.storage < p.s3.next) :
    p.s3.heap orig.storage = p.sk.heap cpu.storage
    ∧ r.st.heap orig.storage = p.sk.heap cpu.storage := by
  subst hp
  subst hr
  have hcb : (fbPrepare prim kernel op stack s).s3.heap orig.storage =
      (fbPrepare prim kernel op stack s).sk.heap cpu.storage := by
    rw [fbPrepare_s3]
    exact copyBack_writes op.arguments (fbPrepare prim kernel op stack s).recs
      (fbPrepare prim kernel op stack s).cpus (fbPrepare prim kernel op stack s).sk
      i tidx orig cpu hi hrec hcpu hwa hod hcd hdist
  refine ⟨hcb, ?_⟩
  have h2 : (cpu_fallback prim kernel op stack s).st.heap orig.storage =
      (fbPrepare prim kernel op stack s).s3.heap orig.storage :=
    resolveReturns_heap_lower op.name op.arguments
      (fbPrepare prim kernel op stack s).recs
      (fbPrepare prim kernel op stack s).cpus
      ((fbPrepare prim kernel op stack s).stack3.length - op.returns.length)
      op.returns 0 (fbPrepare prim kernel op stack s).stack3
      (fbPrepare prim kernel op stack s).s3 [] orig.storage hlow
  rw [h2, hcb]

/-- Witness for C2 on the concrete in place call opA: after the call the
original input storage holds the host computed value left by the kernel. -/
theorem cpu_fallback_write_arg_copy_back_witness :
    (fbPrepare toCpuPrim mutKernel opA stackA stA).s3.heap
        ((Tensor.mk (Device.backend 0) 0).storage) =
      (fbPrepare toCpuPrim mutKernel opA stackA stA).sk.heap
        ((Tensor.mk Device.cpu 2).storage)
    ∧ (cpu_fallback toCpuPrim mutKernel opA stackA stA).st.heap
        ((Tensor.mk (Device.backend 0) 0).storage) =
      (fbPrepare toCpuPrim mutKernel opA stackA stA).sk.heap
        ((Tensor.mk Device.cpu 2).storage) :=
  cpu_fallback_write_arg_copy_back toCpuPrim mutKernel opA stackA stA _ _ 0 0
    (Tensor.mk (Device.backend 0) 0) (Tensor.mk Device.cpu 2) rfl rfl
    (by decide) (by decide) (by decide) (by decide) (by decide) (by decide)
    (by decide) (by decide)

/-- C3: for an operator call with a defined tensor return whose alias
annotation is a write alias that no recorded tensor argument matches,
cpu_fallback fails fatally with the schema inconsistency error naming
the operator and a mismatched return slot; the mismatch is never
silently resolved. Stated with at least one recorded tensor argument, so
that the failure surfaced is the schema check and not the unrelated out
of range precondition violation. -/
theorem cpu_fallback_schema_inconsistency_abort
    (prim : St → List Tensor → St × List Tensor)
    (kernel : St → List IValue → St × List IValue)
    (op : FunctionSchema) (stack : List IValue) (s : St)
    (p : Prepared) (r : FallbackResult) (j i0 : Nat) (t0 : Tensor)
    (rrest : List (Nat × Tensor)) (a : AliasInfo) (ret : Tensor)
    (hp : fbPrepare prim kernel op stack s = p)
    (hr : cpu_fallback prim kernel op stack s = r)
    (hrecs : p.recs = (i0, t0) :: rrest)
    (hj : j < op.returns.length)
    (halias : (op.returns.getD j ⟨none⟩).alias_info = some a)
    (hw : a.is_write = true)
    (hslot : p.stack3.getD (p.stack3.length - op.returns.length + j) dv = IValue.tensor ret)
    (hdef : ret.defined = true)
    (hnomatch : findAliasMatch op.arguments (some a) p.recs p.cpus = none) :
    ∃ j0 a0 ret0, r.err = some (FallbackError.schemaInconsistency op.name j0) ∧
      j0 < op.returns.length ∧
      (op.returns.getD j0 ⟨none⟩).alias_info = some a0 ∧ a0.is_write = true ∧
      p.stack3.getD (p.stack3.length - op.returns.length + j0) dv = IValue.tensor ret0 ∧
      ret0.defined = true ∧
      findAliasMatch op.arguments (some a0) p.recs p.cpus = none := by
  subst hp
  subst hr
  have hnone2 : findAliasMatch op.arguments (some a) ((i0, t0) :: rrest)
      (fbPrepare prim kernel op stack s).cpus = none := by
    rw [← hrecs]
    exact hnomatch
  have hslot2 : (fbPrepare prim kernel op stack s).stack3.getD
      ((fbPrepare prim kernel op stack s).stack3.length - op.returns.length + (0 + j)) dv =
      IValue.tensor ret := by
    simpa using hslot
  obtain ⟨j0, a0, ret0, hj0, halias0, hw0, hslot0, hdef0, hnone0, herr0⟩ :=
    resolveReturns_schema_abort op.name op.arguments i0 t0 rrest
      (fbPrepare prim kernel op stack s).cpus
      ((fbPrepare prim kernel op stack s).stack3.length - op.returns.length)
      op.returns 0 (fbPrepare prim kernel op stack s).stack3
      (fbPrepare prim kernel op stack s).s3 []
      ⟨j, a, ret, hj, halias, hw, hslot2, hdef, hnone2⟩
  refine ⟨j0, a0, ret0, ?_, hj0, halias0, hw0, ?_, hdef0, ?_⟩
  · have h2 : (resolveReturns op.name op.arguments
        (fbPrepare prim kernel op stack s).recs
        (fbPrepare prim kernel op stack s).cpus
        ((fbPrepare prim kernel op stack s).stack3.length - op.returns.length)
        op.returns 0 (fbPrepare prim kernel op stack s).stack3
        (fbPrepare prim kernel op stack s).s3 []).2.2.2 =
        some (FallbackError.schemaInconsistency op.name (0 + j0)) := by
      rw [hrecs]
      exact herr0
    have h3 : (cpu_fallback prim kernel op stack s).err =
        some (FallbackError.schemaInconsistency op.name (0 + j0)) := h2
    simpa using h3
  · simpa using hslot0
  · rw [hrecs]
    exact hnone0

/-- Witness for C3 on the concrete malformed call opC9: the return write
alias matches no argument annotation and the call aborts with the schema
inconsistency error naming the operator. -/
theorem cpu_fallback_schema_inconsistency_abort_witness :
    ∃ j0 a0 ret0, (cpu_fallback toCpuPrim echoKernel opC9 stackC9 stC9).err =
        some (FallbackError.schemaInconsistency opC9.name j0) ∧
      j0 < opC9.returns.length ∧
      (opC9.returns.getD j0 ⟨none⟩).alias_info = some a0 ∧ a0.is_write = true ∧
      (fbPrepare toCpuPrim echoKernel opC9 stackC9 stC9).stack3.getD
        ((fbPrepare toCpuPrim echoKernel opC9 stackC9 stC9).stack3.length -
          opC9.returns.length + j0) dv = IValue.tensor ret0 ∧
      ret0.defined = true ∧
      findAliasMatch opC9.arguments (some a0)
        (fbPrepare toCpuPrim echoKernel opC9 stackC9 stC9).recs
        (fbPrepare toCpuPrim echoKernel opC9 stackC9 stC9).cpus = none :=
  cpu_fallback_schema_inconsistency_abort toCpuPrim echoKernel opC9 stackC9 stC9
    _ _ 0 0 (Tensor.mk (Device.backend 0) 5) [] ⟨1, true⟩ (Tensor.mk Device.cpu 10)
    rfl rfl (by decide) (by decide) (by decide) (by decide) (by decide) (by decide)
    (by decide)

/-- C6: for an operator call whose single return is a defined tensor
with a read alias annotation (a view), cpu_fallback does not abort: it
emits exactly one non fatal advisory naming the operator and the target
device, and writes into the return slot a freshly allocated tensor on
the target device that carries the data of the host result but does not
share its storage, the same copy path used for unaliased returns. Stated
for a single return schema so that no other return can interfere with
the advisory count or abort the call. -/
theorem cpu_fallback_view_return_degrades_to_copy
    (prim : St → List Tensor → St × List Tensor)
    (kernel : St → List IValue → St × List IValue)
    (op : FunctionSchema) (stack : List IValue) (s : St)
    (p : Prepared) (r : FallbackResult) (rdesc : Argument) (a : AliasInfo)
    (i0 : Nat) (t0 : Tensor) (rrest : List (Nat × Tensor)) (rdev : Device) (rstor : Nat)
    (hp : fbPrepare prim kernel op stack s = p)
    (hr : cpu_fallback prim kernel op stack s = r)
    (hret : op.returns = [rdesc])
    (halias : rdesc.alias_info = some a)
    (hw : a.is_write = false)
    (hrecs : p.recs = (i0, t0) :: rrest)
    (hslot : p.stack3.getD (p.stack3.length - 1) dv = IValue.tensor (Tensor.mk rdev rstor))
    (hdev : rdev ≠ t0.device)
    (hsrc : rstor < p.s3.next) :
    r.err = none
    ∧ r.warnings = [⟨op.name, t0.device⟩]
    ∧ r.stack.getD (p.stack3.length - 1) dv =
        IValue.tensor (Tensor.mk t0.device p.s3.next)
    ∧ p.s3.next ≠ rstor
    ∧ r.st.heap p.s3.next = p.s3.heap rstor := by
  subst hp
  subst hr
  have hlen : (fbPrepare prim kernel op stack s).stack3.length - 1 <
      (fbPrepare prim kernel op stack s).stack3.length :=
    getD_tensor_lt _ _ _ hslot
  have hslot2 : (fbPrepare prim kernel op stack s).stack3.getD
      ((fbPrepare prim kernel op stack s).stack3.length - 1 + 0) dv =
      IValue.tensor (Tensor.mk rdev rstor) := by
    simpa using hslot
  have hto : Tensor.to (Tensor.mk rdev rstor) t0.device
      (fbPrepare prim kernel op stack s).s3 =
      (⟨Function.update (fbPrepare prim kernel op stack s).s3.heap
          (fbPrepare prim kernel op stack s).s3.next
          ((fbPrepare prim kernel op stack s).s3.heap rstor),
        (fbPrepare prim kernel op stack s).s3.next + 1⟩,
       Tensor.mk t0.device (fbPrepare prim kernel op stack s).s3.next) := by
    simp [Tensor.to, hdev]
  have hred := resolveReturns_cons_read_alias op.name op.arguments i0 t0 rrest
    (fbPrepare prim kernel op stack s).cpus
    ((fbPrepare prim kernel op stack s).stack3.length - 1) rdesc [] 0
    (fbPrepare prim kernel op stack s).stack3
    (fbPrepare prim kernel op stack s).s3 [] rdev rstor a hslot2 halias hw
  have hred2 : resolveReturns op.name op.arguments ((i0, t0) :: rrest)
      (fbPrepare prim kernel op stack s).cpus
      ((fbPrepare prim kernel op stack s).stack3.length - 1) [rdesc] 0
      (fbPrepare prim kernel op stack s).stack3
      (fbPrepare prim kernel op stack s).s3 [] =
      ((fbPrepare prim kernel op stack s).stack3.set
          ((fbPrepare prim kernel op stack s).stack3.length - 1 + 0)
          (IValue.tensor (Tensor.to (Tensor.mk rdev rstor) t0.device
            (fbPrepare prim kernel op stack s).s3).2),
        (Tensor.to (Tensor.mk rdev rstor) t0.device
          (fbPrepare prim kernel op stack s).s3).1,
        [] ++ [⟨op.name, t0.device⟩], none) := by
    rw [hred]
    rfl
  have hmain : resolveReturns op.name op.arguments
      (fbPrepare prim kernel op stack s).recs
      (fbPrepare prim kernel op stack s).cpus
      ((fbPrepare prim kernel op stack s).stack3.length - op.returns.length)
      op.returns 0 (fbPrepare prim kernel op stack s).stack3
      (fbPrepare prim kernel op stack s).s3 [] =
      ((fbPrepare prim kernel op stack s).stack3.set
          ((fbPrepare prim kernel op stack s).stack3.length - 1 + 0)
          (IValue.tensor (Tensor.to (Tensor.mk rdev rstor) t0.device
            (fbPrepare prim kernel op stack s).s3).2),
        (Tensor.to (Tensor.mk rdev rstor) t0.device
          (fbPrepare prim kernel op stack s).s3).1,
        [] ++ [⟨op.name, t0.device⟩], none) := by
    rw [hrecs, hret]
    simpa using hred2
  refine ⟨?_, ?_, ?_, by omega, ?_⟩
  · have h3 : (cpu_fallback prim kernel op stack s).err =
        (resolveReturns op.name op.arguments
          (fbPrepare prim kernel op stack s).recs
          (fbPrepare prim kernel op stack s).cpus
          ((fbPrepare prim kernel op stack s).stack3.length - op.returns.length)
          op.returns 0 (fbPrepare prim kernel op stack s).stack3
          (fbPrepare prim kernel op stack s).s3 []).2.2.2 := rfl
    rw [h3, hmain]
  · have h3 : (cpu_fallback prim kernel op stack s).warnings =
        (resolveReturns op.name op.arguments
          (fbPrepare prim kernel op stack s).recs
          (fbPrepare prim kernel op stack s).cpus
          ((fbPrepare prim kernel op stack s).stack3.length - op.returns.length)
          op.returns 0 (fbPrepare prim kernel op stack s).stack3
          (fbPrepare prim kernel op stack s).s3 []).2.2.1 := rfl
    rw [h3, hmain]
    simp
  · have h3 : (cpu_fallback prim kernel op stack s).stack =
        (resolveReturns op.name op.arguments
          (fbPrepare prim kernel op stack s).recs
          (fbPrepare prim kernel op stack s).cpus
          ((fbPrepare prim kernel op stack s).stack3.length - op.returns.length)
          op.returns 0 (fbPrepare prim kernel op stack s).stack3
          (fbPrepare prim kernel op stack s).s3 []).1 := rfl
    rw [h3, hmain, hto]
    simp only [Nat.add_zero]
    exact getD_set_self _ _ _ dv hlen
  · have h3 : (cpu_fallback prim kernel op stack s).st =
        (resolveReturns op.name op.arguments
          (fbPrepare prim kernel op stack s).recs
          (fbPrepare prim kernel op stack s).cpus
          ((fbPrepare prim kernel op stack s).stack3.length - op.returns.length)
          op.returns 0 (fbPrepare prim kernel op stack s).stack3
          (fbPrepare prim kernel op stack s).s3 []).2.1 := rfl
    rw [h3, hmain, hto]
    exact Function.update_same _ _ _

/-- Witness for C6 on the concrete view style call opB: the call
succeeds, one advisory is emitted, and the return slot holds a fresh
standalone tensor on the backend device with the host data. -/
theorem cpu_fallback_view_return_degrades_to_copy_witness :
    (cpu_fallback toCpuPrim headKernel opB stackA stA).err = none
    ∧ (cpu_fallback toCpuPrim headKernel opB stackA stA).warnings =
        [⟨opB.name, (Tensor.mk (Device.backend 0) 0).device⟩]
    ∧ (cpu_fallback toCpuPrim headKernel opB stackA stA).stack.getD
        ((fbPrepare toCpuPrim headKernel opB stackA stA).stack3.length - 1) dv =
        IValue.tensor (Tensor.mk ((Tensor.mk (Device.backend 0) 0).device)
          ((fbPrepare toCpuPrim headKernel opB stackA stA).s3.next))
    ∧ (fbPrepare toCpuPrim headKernel opB stackA stA).s3.next ≠ 2
    ∧ (cpu_fallback toCpuPrim headKernel opB stackA stA).st.heap
        ((fbPrepare toCpuPrim headKernel opB stackA stA).s3.next) =
      (fbPrepare toCpuPrim headKernel opB stackA stA).s3.heap 2 :=
  cpu_fallback_view_return_degrades_to_copy toCpuPrim headKernel opB stackA stA
    _ _ ⟨some ⟨0, false⟩⟩ ⟨0, false⟩ 0 (Tensor.mk (Device.backend 0) 0)
    [(1, Tensor.mk (Device.backend 0) 1)] Device.cpu 2
    rfl rfl (by decide) (by decide) (by decide) (by decide) (by decide)
    (by decide) (by decide)

/-- C7: for a defined tensor return without a write alias annotation,
after a successful call the return slot holds a copy of the host result
tensor transferred to the device of the first recorded tensor argument:
a tensor residing on that device whose final data equals the data the
host result held when the resolution loop reached the slot. That
argument is the first tensor valued slot of the original argument
window, so the target device is inferred once and is the same for every
such return of the call. The storage of the host result tensor predates
the resolution loop by construction; the hypothesis hsrc states this. -/
theorem cpu_fallback_return_copied_to_first_arg_device
    (prim : St → List Tensor → St × List Tensor)
    (kernel : St → List IValue → St × List IValue)
    (op : FunctionSchema) (stack : List IValue) (s : St)
    (p : Prepared) (r : FallbackResult) (j i0 : Nat) (t0 : Tensor)
    (rrest : List (Nat × Tensor)) (ret : Tensor)
    (hp : fbPrepare prim kernel op stack s = p)
    (hr : cpu_fallback prim kernel op stack s = r)
    (hok : r.err = none)
    (hrecs : p.recs = (i0, t0) :: rrest)
    (hj : j < op.returns.length)
    (hnw : writeAliased ((op.returns.getD j ⟨none⟩).alias_info) = false)
    (hslot : p.stack3.getD (p.stack3.length - op.returns.length + j) dv = IValue.tensor ret)
    (hdef : ret.defined = true)
    (hsrc : ret.storage < p.s3.next) :
    (∃ u, r.stack.getD (p.stack3.length - op.returns.length + j) dv = IValue.tensor u ∧
      u.device = t0.device ∧
      r.st.heap u.storage = p.s3.heap ret.storage)
    ∧ (stack.drop (stack.length - op.arguments.length)).getD i0 dv = IValue.tensor t0
    ∧ ∀ i2, i2 < i0 →
        ((stack.drop (stack.length - op.arguments.length)).getD i2 dv).isTensor = false := by
  subst hp
  subst hr
  have hok2 : (resolveReturns op.name op.arguments
      (fbPrepare prim kernel op stack s).recs
      (fbPrepare prim kernel op stack s).cpus
      ((fbPrepare prim kernel op stack s).stack3.length - op.returns.length)
      op.returns 0 (fbPrepare prim kernel op stack s).stack3
      (fbPrepare prim kernel op stack s).s3 []).2.2.2 = none := hok
  have hslot2 : (fbPrepare prim kernel op stack s).stack3.getD
      ((fbPrepare prim kernel op stack s).stack3.length - op.returns.length + (0 + j)) dv =
      IValue.tensor ret := by
    simpa using hslot
  obtain ⟨_, part2⟩ := resolveReturns_slot_spec op.name op.arguments
    (fbPrepare prim kernel op stack s).recs
    (fbPrepare prim kernel op stack s).cpus
    ((fbPrepare prim kernel op stack s).stack3.length - op.returns.length)
    op.returns 0 (fbPrepare prim kernel op stack s).stack3
    (fbPrepare prim kernel op stack s).s3 [] j ret hok2 hj hslot2 hdef
  obtain ⟨u, hu, hdevu, hdata⟩ := part2 hnw i0 t0 rrest hrecs
  have hgh : (gatherArgs prim s 0
      (stack.drop (stack.length - op.arguments.length))).2.2 = (i0, t0) :: rrest := by
    rw [← fbPrepare_recs prim kernel op stack s]
    exact hrecs
  obtain ⟨_, hget, hfirst⟩ := gatherArgs_head_first prim
    (stack.drop (stack.length - op.arguments.length)) s 0 i0 t0 rrest hgh
  refine ⟨⟨u, ?_, hdevu, ?_⟩, by simpa using hget, ?_⟩
  · have h3 : (cpu_fallback prim kernel op stack s).stack.getD
        ((fbPrepare prim kernel op stack s).stack3.length - op.returns.length + (0 + j)) dv =
        IValue.tensor u := hu
    simpa using h3
  · exact hdata hsrc
  · intro i2 hi2
    have h4 := hfirst i2 (by omega) hi2
    simpa using h4

/-- Witness for C7 on the concrete view style call opB: the return slot
tensor resides on the device of the first tensor argument, carries the
data of the host result, and that argument is the first tensor valued
slot of the window. -/
theorem cpu_fallback_return_copied_to_first_arg_device_witness :
    (∃ u, (cpu_fallback toCpuPrim headKernel opB stackA stA).stack.getD
        ((fbPrepare toCpuPrim headKernel opB stackA stA).stack3.length -
          opB.returns.length + 0) dv = IValue.tensor u ∧
      u.device = (Tensor.mk (Device.backend 0) 0).device ∧
      (cpu_fallback toCpuPrim headKernel opB stackA stA).st.heap u.storage =
        (fbPrepare toCpuPrim headKernel opB stackA stA).s3.heap
          ((Tensor.mk Device.cpu 2).storage))
    ∧ (stackA.drop (stackA.length - opB.arguments.length)).getD 0 dv =
        IValue.tensor (Tensor.mk (Device.backend 0) 0) :=
  ⟨(cpu_fallback_return_copied_to_first_arg_device toCpuPrim headKernel opB stackA stA
      _ _ 0 0 (Tensor.mk (Device.backend 0) 0) [(1, Tensor.mk (Device.backend 0) 1)]
      (Tensor.mk Device.cpu 2) rfl rfl (by decide) (by decide) (by decide) (by decide)
      (by decide) (by decide) (by decide)).1,
   (cpu_fallback_return_copied_to_first_arg_device toCpuPrim headKernel opB stackA stA
      _ _ 0 0 (Tensor.mk (Device.backend 0) 0) [(1, Tensor.mk (Device.backend 0) 1)]
      (Tensor.mk Device.cpu 2) rfl rfl (by decide) (by decide) (by decide) (by decide)
      (by decide) (by decide) (by decide)).2.1⟩

/-- C8: with at least one recorded tensor argument every access to the
first recorded tensor argument during return resolution is in bounds, so
the out of range branch is unreachable; with zero recorded tensor
arguments and a defined tensor return without write alias reaching the
copy path, the run surfaces the out of range marker: a precondition
violation, not a handled case. -/
theorem cpu_fallback_first_arg_access_bounds
    (prim : St → List Tensor → St × List Tensor)
    (kernel : St → List IValue → St × List IValue)
    (op : FunctionSchema) (stack : List IValue) (s : St)
    (p : Prepared) (r : FallbackResult) (rdesc : Argument) (ret : Tensor)
    (i0 : Nat) (t0 : Tensor) (rrest : List (Nat × Tensor))
    (hp : fbPrepare prim kernel op stack s = p)
    (hr : cpu_fallback prim kernel op stack s = r) :
    (p.recs = (i0, t0) :: rrest → r.err ≠ some FallbackError.indexOutOfRange)
    ∧ (p.recs = [] → op.returns = [rdesc] →
       writeAliased rdesc.alias_info = false →
       p.stack3.getD (p.stack3.length - 1) dv = IValue.tensor ret →
       ret.defined = true →
       r.err = some FallbackError.indexOutOfRange) := by
  subst hp
  subst hr
  constructor
  · intro hrecs hcontra
    have h2 : (resolveReturns op.name op.arguments
        (fbPrepare prim kernel op stack s).recs
        (fbPrepare prim kernel op stack s).cpus
        ((fbPrepare prim kernel op stack s).stack3.length - op.returns.length)
        op.returns 0 (fbPrepare prim kernel op stack s).stack3
        (fbPrepare prim kernel op stack s).s3 []).2.2.2 =
        some FallbackError.indexOutOfRange := hcontra
    rw [hrecs] at h2
    exact resolveReturns_no_oob op.name op.arguments i0 t0 rrest
      (fbPrepare prim kernel op stack s).cpus
      ((fbPrepare prim kernel op stack s).stack3.length - op.returns.length)
      op.returns 0 (fbPrepare prim kernel op stack s).stack3
      (fbPrepare prim kernel op stack s).s3 [] h2
  · intro hrecs0 hret hnw hslot hdef
    cases ret with
    | undef => exact absurd hdef (by simp [Tensor.defined])
    | mk rdev rstor =>
      have hslot2 : (fbPrepare prim kernel op stack s).stack3.getD
          ((fbPrepare prim kernel op stack s).stack3.length - 1 + 0) dv =
          IValue.tensor (Tensor.mk rdev rstor) := by
        simpa using hslot
      have hgoal : (resolveReturns op.name op.arguments
          (fbPrepare prim kernel op stack s).recs
          (fbPrepare prim kernel op stack s).cpus
          ((fbPrepare prim kernel op stack s).stack3.length - op.returns.length)
          op.returns 0 (fbPrepare prim kernel op stack s).stack3
          (fbPrepare prim kernel op stack s).s3 []).2.2.2 =
          some FallbackError.indexOutOfRange := by
        rw [hrecs0, hret]
        simp only [List.length_singleton]
        cases halias2 : rdesc.alias_info with
        | some a =>
          have hwf : a.is_write = false := by
            rw [halias2] at hnw
            simpa [writeAliased] using hnw
          rw [resolveReturns_cons_read_alias_oob op.name op.arguments
            (fbPrepare prim kernel op stack s).cpus
            ((fbPrepare prim kernel op stack s).stack3.length - 1) rdesc [] 0
            (fbPrepare prim kernel op stack s).stack3
            (fbPrepare prim kernel op stack s).s3 [] rdev rstor a hslot2 halias2 hwf]
        | none =>
          rw [resolveReturns_cons_noalias_oob op.name op.arguments
            (fbPrepare prim kernel op stack s).cpus
            ((fbPrepare prim kernel op stack s).stack3.length - 1) rdesc [] 0
            (fbPrepare prim kernel op stack s).stack3
            (fbPrepare prim kernel op stack s).s3 [] rdev rstor hslot2 halias2]
      exact hgoal

/-- Witness for C8 on the concrete zero tensor argument call opZ: the
run surfaces the out of range precondition violation. -/
theorem cpu_fallback_first_arg_access_bounds_witness :
    (cpu_fallback toCpuPrim constKernel opZ stackZ stC9).err =
      some FallbackError.indexOutOfRange :=
  (cpu_fallback_first_arg_access_bounds toCpuPrim constKernel opZ stackZ stC9
    _ _ ⟨none⟩ (Tensor.mk Device.cpu 0) 0 Tensor.undef [] rfl rfl).2
    (by decide) rfl (by decide) (by decide) (by decide)

/-- C9 counterexample: on the concrete malformed call opC9 the fallback
fails fatally, yet the observable value stack is not the stack from
before the call: the argument slot already holds the relocated host
tensor, refuting the claim that a failing call leaves the observable
state unchanged. -/
theorem cpu_fallback_failure_mutates_state_cex :
    (cpu_fallback toCpuPrim echoKernel opC9 stackC9 stC9).err =
      some (FallbackError.schemaInconsistency "f" 0)
    ∧ (cpu_fallback toCpuPrim echoKernel opC9 stackC9 stC9).stack ≠ stackC9 := by
  constructor
  · decide
  · decide

/-- C9 amended: a failure of an alias resolution step is fatal and is
propagated unmodified with no retry: the error names the operator, and
once the failing slot is reached the loop stops, leaving the failing
return slot and every later one exactly as the kernel left them; the
mutations already performed before the failure, such as the relocated
argument slots, persist rather than being rolled back. -/
theorem cpu_fallback_fail_stop_no_retry
    (prim : St → List Tensor → St × List Tensor)
    (kernel : St → List IValue → St × List IValue)
    (op : FunctionSchema) (stack : List IValue) (s : St)
    (p : Prepared) (r : FallbackResult) (nm : String) (j : Nat)
    (hp : fbPrepare prim kernel op stack s = p)
    (hr : cpu_fallback prim kernel op stack s = r)
    (herr : r.err = some (FallbackError.schemaInconsistency nm j)) :
    nm = op.name ∧
    ∀ q, p.stack3.length - op.returns.length + j ≤ q →
      r.stack.getD q dv = p.stack3.getD q dv := by
  subst hp
  subst hr
  have herr2 : (resolveReturns op.name op.arguments
      (fbPrepare prim kernel op stack s).recs
      (fbPrepare prim kernel op stack s).cpus
      ((fbPrepare prim kernel op stack s).stack3.length - op.returns.length)
      op.returns 0 (fbPrepare prim kernel op stack s).stack3
      (fbPrepare prim kernel op stack s).s3 []).2.2.2 =
      some (FallbackError.schemaInconsistency nm j) := herr
  obtain ⟨hnm, _, hfr⟩ := resolveReturns_abort_freeze op.name op.arguments
    (fbPrepare prim kernel op stack s).recs
    (fbPrepare prim kernel op stack s).cpus
    ((fbPrepare prim kernel op stack s).stack3.length - op.returns.length)
    op.returns 0 (fbPrepare prim kernel op stack s).stack3
    (fbPrepare prim kernel op stack s).s3 [] nm j herr2
  refine ⟨hnm, ?_⟩
  intro q hq
  have h3 : (cpu_fallback prim kernel op stack s).stack.getD q dv =
      ((resolveReturns op.name op.arguments
        (fbPrepare prim kernel op stack s).recs
        (fbPrepare prim kernel op stack s).cpus
        ((fbPrepare prim kernel op stack s).stack3.length - op.returns.length)
        op.returns 0 (fbPrepare prim kernel op stack s).stack3
        (fbPrepare prim kernel op stack s).s3 []).1).getD q dv := rfl
  rw [h3, hfr q hq]

/-- Witness for the amended C9 on the concrete malformed call opC9. -/
theorem cpu_fallback_fail_stop_no_retry_witness :
    "f" = opC9.name ∧
    ∀ q, (fbPrepare toCpuPrim echoKernel opC9 stackC9 stC9).stack3.length -
        opC9.returns.length + 0 ≤ q →
      (cpu_fallback toCpuPrim echoKernel opC9 stackC9 stC9).stack.getD q dv =
        (fbPrepare toCpuPrim echoKernel opC9 stackC9 stC9).stack3.getD q dv :=
  cpu_fallback_fail_stop_no_retry toCpuPrim echoKernel opC9 stackC9 stC9 _ _
    "f" 0 rfl rfl (by decide)

/-- C10: when a defined write aliased tensor return is resolved, the
input substituted into the slot is the first recorded tensor argument,
in increasing argument order, whose relocated tensor is defined and
whose alias annotation compares equal to that of the return; a recorded
argument whose relocated tensor is undefined is skipped even when its
annotation matches, and an undefined relocated tensor can never be the
substitution target. -/
theorem cpu_fallback_first_matching_input_substituted
    (prim : St → List Tensor → St × List Tensor)
    (kernel : St → List IValue → St × List IValue)
    (op : FunctionSchema) (stack : List IValue) (s : St)
    (p : Prepared) (r : FallbackResult) (j k : Nat) (a : AliasInfo) (ret : Tensor)
    (hp : fbPrepare prim kernel op stack s = p)
    (hr : cpu_fallback prim kernel op stack s = r)
    (hok : r.err = none)
    (hj : j < op.returns.length)
    (halias : (op.returns.getD j ⟨none⟩).alias_info = some a)
    (hw : a.is_write = true)
    (hslot : p.stack3.getD (p.stack3.length - op.returns.length + j) dv = IValue.tensor ret)
    (hdef : ret.defined = true)
    (hk : k < p.recs.length)
    (hkdef : (p.cpus.getD k Tensor.undef).defined = true)
    (hkmatch : (op.arguments.getD (p.recs.getD k (0, Tensor.undef)).1 ⟨none⟩).alias_info = some a)
    (hfirst : ∀ j2, j2 < k → ¬((p.cpus.getD j2 Tensor.undef).defined = true ∧
      (op.arguments.getD (p.recs.getD j2 (0, Tensor.undef)).1 ⟨none⟩).alias_info = some a)) :
    r.stack.getD (p.stack3.length - op.returns.length + j) dv =
      IValue.tensor ((p.recs.getD k (0, Tensor.undef)).2)
    ∧ ∀ t, findAliasMatch op.arguments (some a) p.recs p.cpus = some t →
        ∃ k2, k2 < p.recs.length ∧ (p.cpus.getD k2 Tensor.undef).defined = true ∧
          t = (p.recs.getD k2 (0, Tensor.undef)).2 := by
  subst hp
  subst hr
  have hok2 : (resolveReturns op.name op.arguments
      (fbPrepare prim kernel op stack s).recs
      (fbPrepare prim kernel op stack s).cpus
      ((fbPrepare prim kernel op stack s).stack3.length - op.returns.length)
      op.returns 0 (fbPrepare prim kernel op stack s).stack3
      (fbPrepare prim kernel op stack s).s3 []).2.2.2 = none := hok
  have hslot2 : (fbPrepare prim kernel op stack s).stack3.getD
      ((fbPrepare prim kernel op stack s).stack3.length - op.returns.length + (0 + j)) dv =
      IValue.tensor ret := by
    simpa using hslot
  obtain ⟨part1, _⟩ := resolveReturns_slot_spec op.name op.arguments
    (fbPrepare prim kernel op stack s).recs
    (fbPrepare prim kernel op stack s).cpus
    ((fbPrepare prim kernel op stack s).stack3.length - op.returns.length)
    op.returns 0 (fbPrepare prim kernel op stack s).stack3
    (fbPrepare prim kernel op stack s).s3 [] j ret hok2 hj hslot2 hdef
  obtain ⟨t, hm, hslotF⟩ := part1 a halias hw
  have hmfirst := findAliasMatch_eq_first op.arguments (some a)
    (fbPrepare prim kernel op stack s).recs
    (fbPrepare prim kernel op stack s).cpus k hk hkdef hkmatch hfirst
  rw [hmfirst] at hm
  injection hm with hm2
  constructor
  · have h3 : (cpu_fallback prim kernel op stack s).stack.getD
        ((fbPrepare prim kernel op stack s).stack3.length - op.returns.length + (0 + j)) dv =
        IValue.tensor t := hslotF
    rw [← hm2] at h3
    simpa using h3
  · intro t2 hm3
    obtain ⟨k2, hk2, ht2, hdef2, _⟩ := findAliasMatch_some_defined op.arguments (some a)
      (fbPrepare prim kernel op stack s).recs
      (fbPrepare prim kernel op stack s).cpus t2 hm3
    exact ⟨k2, hk2, hdef2, ht2⟩

/-- Witness for C10 on the concrete call opD: the first argument has a
matching annotation but an undefined relocated tensor and is skipped;
the second argument is substituted into the return slot. -/
theorem cpu_fallback_first_matching_input_substituted_witness :
    (cpu_fallback toCpuPrim secondKernel opD stackD stD).stack.getD
      ((fbPrepare toCpuPrim secondKernel opD stackD stD).stack3.length -
        opD.returns.length + 0) dv =
      IValue.tensor (((fbPrepare toCpuPrim secondKernel opD stackD stD).recs.getD 1
        (0, Tensor.undef)).2) :=
  (cpu_fallback_first_matching_input_substituted toCpuPrim secondKernel opD stackD stD
    _ _ 0 1 ⟨0, true⟩ (Tensor.mk Device.cpu 1) rfl rfl (by decide) (by decide)
    (by decide) (by decide) (by decide) (by decide) (by decide) (by decide)
    (by decide) (by decide)).1
